import Mathlib

/-!
A verification development for the GeoToolbox static box/point tree
(`BoxTreeStatic` in `SpatialTools`-adjacent headers, plus the geometry
primitives in `GeometryTools.hpp`).

Shallow embedding conventions:

* The C++ scalar type is IEEE double.  We model it as `Option ℚ`: `none`
  plays the role of NaN (every comparison involving it is false, mirroring
  IEEE ordered comparisons), and `some q` is an ordinary finite value with
  exact rational arithmetic standing in for double arithmetic.
* The reference instantiation is two-dimensional (`Vector2`), so vectors
  are pairs and the axis loops run over `[0, 1]`.
* `std::vector` buffers become `List`s indexed by `Int` (the C++ code uses
  `int` indices, including `-1` sentinels); out-of-range reads return a
  default element, and out-of-range writes are dropped.  All reads and
  writes performed by the modelled code are in range.
* Every C++ loop is modelled as structural recursion on an explicit fuel
  argument chosen large enough at the call sites; the worklist build loop
  and the query walks terminate in the C++ code, and all theorems below
  are either fuel-independent invariants or come with fuel bounds proved
  from the tree shape.
* The tree is generic over the spatial key kind (point or box, selected by
  `if constexpr (KeyIsBox)` in the source).  `TreeModel` packages the key
  interface (`GetSpatialKey`, `GetLowBound`, `GetHighBound`, `Overlap`,
  `GetDistanceSquared`, `Box::Add`); `pointModel` and `boxModel` are the
  two instantiations that occur in the program.
-/

namespace GeoToolbox

/-- Scalar: IEEE double modelled as `Option ℚ`, `none` = NaN. -/
abbrev F : Type := Option ℚ

/-- `a < b` with IEEE semantics: false when either side is NaN. -/
def flt : F → F → Bool
  | some a, some b => decide (a < b)
  | _, _ => false

/-- `a <= b` with IEEE semantics: false when either side is NaN. -/
def fle : F → F → Bool
  | some a, some b => decide (a ≤ b)
  | _, _ => false

/-- `a > b` with IEEE semantics. -/
def fgt (a b : F) : Bool := flt b a

/-- `a >= b` with IEEE semantics. -/
def fge (a b : F) : Bool := fle b a

/-- Addition; NaN propagates. -/
def fadd : F → F → F
  | some a, some b => some (a + b)
  | _, _ => none

/-- Subtraction; NaN propagates. -/
def fsub : F → F → F
  | some a, some b => some (a - b)
  | _, _ => none

/-- Multiplication; NaN propagates.  (Infinities are outside the model.) -/
def fmul : F → F → F
  | some a, some b => some (a * b)
  | _, _ => none

/-- Division; NaN propagates.  (Division by zero is outside the model.) -/
def fdiv : F → F → F
  | some a, some b => some (a / b)
  | _, _ => none

/-- `std::min(a, b)` = `b < a ? b : a`. -/
def fmin (a b : F) : F := if flt b a then b else a

/-- `std::max(a, b)` = `a < b ? b : a`. -/
def fmax (a b : F) : F := if flt a b then b else a

/-- `std::clamp(v, lo, hi)` = `v < lo ? lo : hi < v ? hi : v`. -/
def fclamp (v lo hi : F) : F := if flt v lo then lo else if flt hi v then hi else v

/-- `Square(x)` from `StlExtensions.hpp`. -/
def fsquare (x : F) : F := fmul x x

/-- The scalar is an ordinary (non-NaN) value. -/
def isQ (x : F) : Prop := x.isSome = true

/-- `Vector2`: a 2-tuple of scalars. -/
abbrev Vec : Type := F × F

/-- `v[axis]` for the two-dimensional vector. -/
def vget (v : Vec) (a : Nat) : F := if a = 0 then v.1 else v.2

/-- Write one coordinate of a vector. -/
def vset (v : Vec) (a : Nat) (x : F) : Vec := if a = 0 then (x, v.2) else (v.1, x)

/-- Componentwise subtraction (`OperatorSub`). -/
def vsub (a b : Vec) : Vec := (fsub a.1 b.1, fsub a.2 b.2)

/-- The axis indices of the two-dimensional instantiation. -/
def axes : List Nat := [0, 1]

/-- `Box<Vector2>`: a min/max pair of corners.  The default state (from the
default constructor) has NaN in both corners and is the *empty* box. -/
structure FBox where
  bmin : Vec
  bmax : Vec
deriving DecidableEq, Repr

instance : Inhabited FBox := ⟨⟨(none, none), (none, none)⟩⟩

/-- `Box()`: the default-constructed empty box (NaN corners). -/
def emptyBox : FBox := ⟨(none, none), (none, none)⟩

/-- `Box::Sizes()` = `max - min`. -/
def boxSizes (b : FBox) : Vec := vsub b.bmax b.bmin

/-- `Overlap(Box a, Box b)`: scans the axes and returns false as soon as
`a.Max()[i] < b.Min()[i] || a.Min()[i] > b.Max()[i]`. -/
def Overlap (a b : FBox) : Bool :=
  axes.all fun i => !(flt (vget a.bmax i) (vget b.bmin i) || fgt (vget a.bmin i) (vget b.bmax i))

/-- `Overlap(Box box, Vector point)`: false as soon as
`point[i] < box.Min()[i] || point[i] > box.Max()[i]`. -/
def OverlapPoint (box : FBox) (p : Vec) : Bool :=
  axes.all fun i => !(flt (vget p i) (vget box.bmin i) || fgt (vget p i) (vget box.bmax i))

/-- `GetClosestPointOnBox`: componentwise clamp of the target into the box. -/
def GetClosestPointOnBox (box : FBox) (p : Vec) : Vec :=
  (fclamp p.1 box.bmin.1 box.bmax.1, fclamp p.2 box.bmin.2 box.bmax.2)

/-- `GetDistanceSquared(Vector, Vector)` = Σ (a[i]-b[i])². -/
def GetDistanceSquaredPt (a b : Vec) : F :=
  fadd (fsquare (fsub a.1 b.1)) (fsquare (fsub a.2 b.2))

/-- `GetDistanceSquared(Vector, Box)`: distance to the closest point on the box. -/
def GetDistanceSquaredBox (p : Vec) (box : FBox) : F :=
  GetDistanceSquaredPt p (GetClosestPointOnBox box p)

/-- `Box::Add(Vector)`: grow the box to contain a point.  Works for the NaN
empty state through the negated comparisons in the source
(`!(x <= y) ? y : x` and `!(x >= y) ? y : x`). -/
def boxAddPoint (b : FBox) (p : Vec) : FBox :=
  ⟨(if !(fle b.bmin.1 p.1) then p.1 else b.bmin.1,
    if !(fle b.bmin.2 p.2) then p.2 else b.bmin.2),
   (if !(fge b.bmax.1 p.1) then p.1 else b.bmax.1,
    if !(fge b.bmax.2 p.2) then p.2 else b.bmax.2)⟩

/-- `Box::IsEmpty()` = `min[0] != min[0]`, i.e. the first coordinate is NaN. -/
def boxIsEmpty (b : FBox) : Bool := !b.bmin.1.isSome

/-- `Box::Add(Box)`: skip empty boxes, otherwise add both corners. -/
def boxAddBox (b other : FBox) : FBox :=
  if boxIsEmpty other then b else boxAddPoint (boxAddPoint b other.bmin) other.bmax

/-- `GetLowBound(key, axis)` for a box key. -/
def boxLowBound (b : FBox) (a : Nat) : F := vget b.bmin a

/-- `GetHighBound(key, axis)` for a box key. -/
def boxHighBound (b : FBox) (a : Nat) : F := vget b.bmax a

/-- The spatial-key interface of `BoxTreeStatic`: element type, key
projection (`TTraits::GetSpatialKey`), the compile-time `KeyIsBox` flag and
the key operations the tree uses (`GetLowBound`, `GetHighBound`,
`Overlap(range, key)`, `GetDistanceSquared(point, key)`, and the `Box::Add`
overload used by `Bound`). -/
structure TreeModel where
  Elem : Type
  Key : Type
  getKey : Elem → Key
  keyIsBox : Bool
  lowBound : Key → Nat → F
  highBound : Key → Nat → F
  keyOverlap : FBox → Key → Bool
  keyDist2 : Vec → Key → F
  boundAdd : FBox → Key → FBox

/-- The point-key instantiation (`TElement = Vector2`, default traits). -/
def pointModel : TreeModel where
  Elem := Vec
  Key := Vec
  getKey := id
  keyIsBox := false
  lowBound := vget
  highBound := vget
  keyOverlap := OverlapPoint
  keyDist2 := GetDistanceSquaredPt
  boundAdd := boxAddPoint

/-- The box-key instantiation (`TElement = Box<Vector2>`, default traits). -/
def boxModel : TreeModel where
  Elem := FBox
  Key := FBox
  getKey := id
  keyIsBox := true
  lowBound := boxLowBound
  highBound := boxHighBound
  keyOverlap := Overlap
  keyDist2 := GetDistanceSquaredBox
  boundAdd := boxAddBox

instance : Inhabited pointModel.Elem := ⟨((none, none) : Vec)⟩

instance : Inhabited boxModel.Elem := ⟨emptyBox⟩

/-- `BoxTreeStatic::Node`.  `boxData` (middle child and locked-axes bitset)
exists only for box keys in the source; here the fields are always present
and stay at their defaults for point keys, exactly as the point-key code
paths never touch them. -/
structure Node where
  parent : Int
  lowChild : Int := -1
  highChild : Int := -1
  elementsBegin : Int := -1
  elementsEnd : Int := -1
  box : FBox := emptyBox
  splitPosition : F := some 0
  splitAxis : Int := -1
  middleChild : Int := -1
  lockedAxesMask : Nat := 0
deriving DecidableEq, Repr

instance : Inhabited Node := ⟨{ parent := -1 }⟩

/-- `Node::GetElementCount()`. -/
def Node.elementCount (nd : Node) : Int := nd.elementsEnd - nd.elementsBegin

/-- `Node::IsAxisLocked(axis)` — `lockedAxesMask.test(axis)`. -/
def Node.isAxisLocked (nd : Node) (a : Nat) : Bool := nd.lockedAxesMask.testBit a

/-- The tree: the element buffer, the node arena and the leaf capacity. -/
structure TreeState (M : TreeModel) where
  elements : List M.Elem
  nodes : List Node
  maxElementsPerNode : Int

/-- The constructor `BoxTreeStatic(int maxElementsPerNode = 0, ...)`:
a non-positive argument silently selects the default `MaxElementsPerNode`
(64); no error is raised. -/
def mkTree (M : TreeModel) (maxElementsPerNode : Int) : TreeState M :=
  { elements := [], nodes := [],
    maxElementsPerNode := if maxElementsPerNode > 0 then maxElementsPerNode else 64 }

/-- Read a list at an `int` index; a default for the (never exercised)
out-of-range case. -/
def iget {α : Type} [Inhabited α] (l : List α) (i : Int) : α :=
  if h : 0 ≤ i ∧ i.toNat < l.length then l.get ⟨i.toNat, h.2⟩ else default

/-- `std::swap(l[i], l[j])`; out-of-range indices (never exercised) leave
the list unchanged. -/
def listSwap {α : Type} [Inhabited α] (l : List α) (i j : Int) : List α :=
  if 0 ≤ i ∧ i.toNat < l.length ∧ 0 ≤ j ∧ j.toNat < l.length then
    (l.set i.toNat (iget l j)).set j.toNat (iget l i)
  else l

/-- Update one node of the arena in place. -/
def updNode (ns : List Node) (j : Int) (f : Node → Node) : List Node :=
  if 0 ≤ j then ns.set j.toNat (f (iget ns j)) else ns

/-- The half-open `int` index range `[b, e)` as a list. -/
def intRange (b e : Int) : List Int :=
  (List.range (e - b).toNat).map fun (k : Nat) => b + (k : Int)

/-- Node lookup. -/
def TreeState.node {M : TreeModel} (t : TreeState M) (j : Int) : Node := iget t.nodes j

/-- The spatial key of the element stored at buffer index `i`. -/
def treeKey (M : TreeModel) [Inhabited M.Elem] (t : TreeState M) (i : Int) : M.Key :=
  M.getKey (iget t.elements i)

/-- Key of element `i` of a raw buffer. -/
def bufKey (M : TreeModel) [Inhabited M.Elem] (es : List M.Elem) (i : Int) : M.Key :=
  M.getKey (iget es i)

/-- `ReduceBoxLeft`: raise the `min` corner of `box` along `axis` to the
minimum of `GetLowBound` over `count` elements starting at `startIndex`
(the running minimum starts from `box[1][axis]`). -/
def ReduceBoxLeft (M : TreeModel) [Inhabited M.Elem] (es : List M.Elem) (box : FBox)
    (startIndex count : Int) (axis : Nat) : FBox :=
  let newLimit := (intRange startIndex (startIndex + count)).foldl
    (fun acc i => fmin acc (M.lowBound (bufKey M es i) axis)) (vget box.bmax axis)
  ⟨vset box.bmin axis newLimit, box.bmax⟩

/-- `ReduceBoxRight`: lower the `max` corner of `box` along `axis` to the
maximum of `GetHighBound` over the run (running maximum starts from
`box[0][axis]`). -/
def ReduceBoxRight (M : TreeModel) [Inhabited M.Elem] (es : List M.Elem) (box : FBox)
    (startIndex count : Int) (axis : Nat) : FBox :=
  let newLimit := (intRange startIndex (startIndex + count)).foldl
    (fun acc i => fmax acc (M.highBound (bufKey M es i) axis)) (vget box.bmin axis)
  ⟨box.bmin, vset box.bmax axis newLimit⟩

/-- Pick the splitting axis: the first axis whose size strictly exceeds all
earlier candidates, skipping locked axes; the running maximum starts at 0,
so an axis qualifies only with strictly positive size.  Returns the axis
(or `-1`) and the final `maxSize`. -/
def pickSplitAxis (sizes : Vec) (nd : Node) : Int × F :=
  axes.foldl
    (fun acc a =>
      if fgt (vget sizes a) acc.2 && !(nd.isAxisLocked a) then ((a : Int), vget sizes a) else acc)
    (-1, some 0)

/-- Forward scan of `PartitionPoints`:
advance `currentLow` while `key[splitAxis] < splitPosition`, stopping at the
first element with `key[splitAxis] >= splitPosition` or past `currentHigh`. -/
def ppScanLow (M : TreeModel) [Inhabited M.Elem] (es : List M.Elem) (axis : Nat) (split : F) :
    Nat → Int → Int → Int
  | 0, cl, _ => cl
  | fuel + 1, cl, ch =>
    if cl ≤ ch then
      if fge (M.lowBound (bufKey M es cl) axis) split then cl
      else ppScanLow M es axis split fuel (cl + 1) ch
    else cl

/-- Backward scan of `PartitionPoints`:
retreat `currentHigh` while `key[splitAxis] >= splitPosition`. -/
def ppScanHigh (M : TreeModel) [Inhabited M.Elem] (es : List M.Elem) (axis : Nat) (split : F) :
    Nat → Int → Int → Int
  | 0, _, ch => ch
  | fuel + 1, cl, ch =>
    if cl ≤ ch then
      if flt (M.lowBound (bufKey M es ch) axis) split then ch
      else ppScanHigh M es axis split fuel cl (ch - 1)
    else ch

/-- The outer swap loop of `PartitionPoints`; returns the buffer and the
final `currentLow`. -/
def ppLoop (M : TreeModel) [Inhabited M.Elem] (axis : Nat) (split : F) :
    Nat → List M.Elem → Int → Int → List M.Elem × Int
  | 0, es, cl, _ => (es, cl)
  | fuel + 1, es, cl, ch =>
    let cl1 := ppScanLow M es axis split (fuel + 1) cl ch
    let ch1 := ppScanHigh M es axis split (fuel + 1) cl1 ch
    if cl1 ≤ ch1 then
      ppLoop M axis split fuel (listSwap es cl1 ch1) (cl1 + 1) (ch1 - 1)
    else (es, cl1)

/-- `PartitionPoints(node, splitAxis, splitPosition)`: two-way in-place
partition of `elements[begin, end)`; returns the buffer and `lowCount`
(`currentLow - node.elementsBegin`).  For point keys
`GetLowBound(key, axis)` is just `key[axis]`. -/
def PartitionPoints (M : TreeModel) [Inhabited M.Elem] (es : List M.Elem) (nd : Node)
    (axis : Nat) (split : F) : List M.Elem × Int :=
  let fuel := (nd.elementsEnd - nd.elementsBegin).toNat + 1
  let r := ppLoop M axis split fuel es nd.elementsBegin (nd.elementsEnd - 1)
  (r.1, r.2 - nd.elementsBegin)

/-- Forward scan of `PartitionBoxes`: advance `currentLow`, swapping cleanly
Low elements (`max[axis] < split`) down to `lowEnd`; break at the first High
element (`min[axis] >= split`).  Returns `(buffer, currentLow, lowEnd)`. -/
def pbScanLow (M : TreeModel) [Inhabited M.Elem] (axis : Nat) (split : F) :
    Nat → List M.Elem → Int → Int → Int → List M.Elem × Int × Int
  | 0, es, cl, _, le => (es, cl, le)
  | fuel + 1, es, cl, ch, le =>
    if cl ≤ ch then
      let k := bufKey M es cl
      if fge (M.lowBound k axis) split then (es, cl, le)
      else
        let es1 := if flt (M.highBound k axis) split then
            (if le < cl then listSwap es le cl else es) else es
        let le1 := if flt (M.highBound k axis) split then le + 1 else le
        pbScanLow M axis split fuel es1 (cl + 1) ch le1
    else (es, cl, le)

/-- Backward scan of `PartitionBoxes` (loop guard `currentLow < currentHigh`):
retreat `currentHigh`, swapping cleanly High elements up to `highEnd`; break
at the first Low element.  Returns `(buffer, currentHigh, highEnd)`. -/
def pbScanHigh (M : TreeModel) [Inhabited M.Elem] (axis : Nat) (split : F) :
    Nat → List M.Elem → Int → Int → Int → List M.Elem × Int × Int
  | 0, es, _, ch, he => (es, ch, he)
  | fuel + 1, es, cl, ch, he =>
    if cl < ch then
      let k := bufKey M es ch
      if flt (M.highBound k axis) split then (es, ch, he)
      else
        let es1 := if fge (M.lowBound k axis) split then
            (if ch < he then listSwap es ch he else es) else es
        let he1 := if fge (M.lowBound k axis) split then he - 1 else he
        pbScanHigh M axis split fuel es1 cl (ch - 1) he1
    else (es, ch, he)

/-- The outer loop of `PartitionBoxes` with its four cursors; returns the
buffer, `lowEnd` and `highEnd`. -/
def pbLoop (M : TreeModel) [Inhabited M.Elem] (axis : Nat) (split : F) :
    Nat → List M.Elem → Int → Int → Int → Int → List M.Elem × Int × Int
  | 0, es, _, le, _, he => (es, le, he)
  | fuel + 1, es, cl, le, ch, he =>
    let s1 := pbScanLow M axis split (fuel + 1) es cl ch le
    let es1 := s1.1; let cl1 := s1.2.1; let le1 := s1.2.2
    let s2 := pbScanHigh M axis split (fuel + 1) es1 cl1 ch he
    let es2 := s2.1; let ch1 := s2.2.1; let he1 := s2.2.2
    if cl1 < ch1 then
      let es3 :=
        if le1 < cl1 then
          if ch1 < he1 then listSwap (listSwap es2 le1 ch1) cl1 he1
          else listSwap (listSwap es2 le1 cl1) le1 he1
        else
          if ch1 < he1 then listSwap (listSwap es2 ch1 he1) le1 he1
          else listSwap es2 cl1 ch1
      pbLoop M axis split fuel es3 (cl1 + 1) (le1 + 1) (ch1 - 1) (he1 - 1)
    else
      if cl1 = ch1 then
        (if ch1 < he1 then listSwap es2 cl1 (he1 - 1) else es2, le1, he1 - 1)
      else (es2, le1, he1)

/-- `PartitionBoxes(node, splitAxis, splitPosition)`: three-way in-place
partition; returns the buffer, `lowCount = lowEnd - begin` and
`highCount = (end - 1) - highEnd`. -/
def PartitionBoxes (M : TreeModel) [Inhabited M.Elem] (es : List M.Elem) (nd : Node)
    (axis : Nat) (split : F) : List M.Elem × Int × Int :=
  let fuel := (nd.elementsEnd - nd.elementsBegin).toNat + 1
  let r := pbLoop M axis split fuel es nd.elementsBegin nd.elementsBegin
    (nd.elementsEnd - 1) (nd.elementsEnd - 1)
  (r.1, r.2.1 - nd.elementsBegin, nd.elementsEnd - 1 - r.2.2)

/-- The split position chosen at a node: `node.box.Min()[axis] + maxSize/2`. -/
def splitPositionOf (M : TreeModel) (t : TreeState M) (j : Int) : F :=
  let nd := t.node j
  let pick := pickSplitAxis (boxSizes nd.box) nd
  fadd (vget nd.box.bmin pick.1.toNat) (fdiv pick.2 (some 2))

/-- The partition step of `SplitNode`: the permuted buffer, `lowCount` and
`highCount` (for point keys `highCount = elementCount - lowCount`). -/
def splitParts (M : TreeModel) [Inhabited M.Elem] (t : TreeState M) (j : Int) :
    List M.Elem × Int × Int :=
  let nd := t.node j
  let pick := pickSplitAxis (boxSizes nd.box) nd
  let axis := pick.1.toNat
  let splitPosition := splitPositionOf M t j
  if M.keyIsBox then PartitionBoxes M t.elements nd axis splitPosition
  else
    let p := PartitionPoints M t.elements nd axis splitPosition
    (p.1, p.2, nd.elementCount - p.2)

/-- The child-emission phase of `SplitNode`: set the parent's split fields,
append the low / high children (boxes tightened by the `ReduceBox` scans),
and handle the middle run (kept at the parent when small, else emitted as a
middle child whose locked-axes bitset is the default-constructed mask with
the split axis set, as in the source). -/
def splitEmit (M : TreeModel) [Inhabited M.Elem] (t : TreeState M) (nodeIndex : Int)
    (pickAxis : Int) (splitPosition : F) (es : List M.Elem) (lowCount highCount : Int) :
    TreeState M :=
  let nd := t.node nodeIndex
  let axis := pickAxis.toNat
  let ns0 := updNode t.nodes nodeIndex fun n =>
    { n with splitAxis := pickAxis, splitPosition := splitPosition }
  let ns1 :=
    if lowCount > 0 then
      let box := ReduceBoxRight M es nd.box nd.elementsBegin lowCount axis
      updNode ns0 nodeIndex (fun n => { n with lowChild := (ns0.length : Int) }) ++
        [{ parent := nodeIndex, elementsBegin := nd.elementsBegin,
           elementsEnd := nd.elementsBegin + lowCount, box := box }]
    else ns0
  let ns2 :=
    if highCount > 0 then
      let box := ReduceBoxLeft M es nd.box (nd.elementsEnd - highCount) highCount axis
      updNode ns1 nodeIndex (fun n => { n with highChild := (ns1.length : Int) }) ++
        [{ parent := nodeIndex, elementsBegin := nd.elementsEnd - highCount,
           elementsEnd := nd.elementsEnd, box := box }]
    else ns1
  let ns3 :=
    if M.keyIsBox then
      let middleCount := nd.elementCount - lowCount - highCount
      if middleCount > 0 ∧ middleCount ≤ t.maxElementsPerNode then
        updNode ns2 nodeIndex fun n =>
          { n with elementsBegin := n.elementsBegin + lowCount,
                   elementsEnd := n.elementsEnd - highCount }
      else
        let ns2a :=
          if middleCount > 0 then
            let box := ReduceBoxRight M es
              (ReduceBoxLeft M es nd.box (nd.elementsBegin + lowCount) middleCount axis)
              (nd.elementsBegin + lowCount) middleCount axis
            updNode ns2 nodeIndex (fun n => { n with middleChild := (ns2.length : Int) }) ++
              [{ parent := nodeIndex, elementsBegin := nd.elementsBegin + lowCount,
                 elementsEnd := nd.elementsEnd - highCount, box := box,
                 lockedAxesMask := (1 : Nat) <<< axis }]
          else ns2
        updNode ns2a nodeIndex fun n => { n with elementsBegin := -1, elementsEnd := -1 }
    else
      updNode ns2 nodeIndex fun n => { n with elementsBegin := -1, elementsEnd := -1 }
  { t with elements := es, nodes := ns3 }

/-- The combined field update applied by `splitEmit` to the node being
split (all its intermediate `updNode`s composed into one). -/
def emitUpd (M : TreeModel) (t : TreeState M) (nodeIndex : Int) (pickAxis : Int)
    (splitPosition : F) (lowCount highCount : Int) : Node → Node := fun nd0 =>
  let nd := t.node nodeIndex
  let n : Int := (t.nodes.length : Int)
  let n1 : Node := { nd0 with splitAxis := pickAxis, splitPosition := splitPosition }
  let n2 : Node := if lowCount > 0 then { n1 with lowChild := n } else n1
  let n3 : Node := if highCount > 0 then
      { n2 with highChild := n + (if lowCount > 0 then 1 else 0) } else n2
  if M.keyIsBox then
    let middleCount := nd.elementCount - lowCount - highCount
    if middleCount > 0 ∧ middleCount ≤ t.maxElementsPerNode then
      { n3 with elementsBegin := n3.elementsBegin + lowCount,
                elementsEnd := n3.elementsEnd - highCount }
    else if middleCount > 0 then
      { n3 with middleChild := n + (if lowCount > 0 then 1 else 0) +
                  (if highCount > 0 then 1 else 0),
                elementsBegin := -1, elementsEnd := -1 }
    else { n3 with elementsBegin := -1, elementsEnd := -1 }
  else { n3 with elementsBegin := -1, elementsEnd := -1 }

/-- The child records appended by `splitEmit`, in order low, high, middle. -/
def emitChildren (M : TreeModel) [Inhabited M.Elem] (t : TreeState M) (nodeIndex : Int)
    (pickAxis : Int) (es : List M.Elem) (lowCount highCount : Int) : List Node :=
  let nd := t.node nodeIndex
  let axis := pickAxis.toNat
  (if lowCount > 0 then
    [{ parent := nodeIndex, elementsBegin := nd.elementsBegin,
       elementsEnd := nd.elementsBegin + lowCount,
       box := ReduceBoxRight M es nd.box nd.elementsBegin lowCount axis }] else []) ++
  (if highCount > 0 then
    [{ parent := nodeIndex, elementsBegin := nd.elementsEnd - highCount,
       elementsEnd := nd.elementsEnd,
       box := ReduceBoxLeft M es nd.box (nd.elementsEnd - highCount) highCount axis }] else []) ++
  (if M.keyIsBox ∧
      ¬(nd.elementCount - lowCount - highCount > 0 ∧
        nd.elementCount - lowCount - highCount ≤ t.maxElementsPerNode) ∧
      nd.elementCount - lowCount - highCount > 0 then
    [{ parent := nodeIndex, elementsBegin := nd.elementsBegin + lowCount,
       elementsEnd := nd.elementsEnd - highCount,
       box := ReduceBoxRight M es
         (ReduceBoxLeft M es nd.box (nd.elementsBegin + lowCount)
           (nd.elementCount - lowCount - highCount) axis)
         (nd.elementsBegin + lowCount) (nd.elementCount - lowCount - highCount) axis,
       lockedAxesMask := (1 : Nat) <<< axis }] else [])

/-- `SplitNode(nodeIndex)`: leaf test, split-axis and split-position choice,
partition, the box-key admission check, and the child emission. -/
def SplitNode (M : TreeModel) [Inhabited M.Elem] (t : TreeState M) (nodeIndex : Int) :
    TreeState M :=
  let nd := t.node nodeIndex
  let elementCount := nd.elementCount
  if elementCount ≤ t.maxElementsPerNode then t else
  let pick := pickSplitAxis (boxSizes nd.box) nd
  if pick.1 < 0 then t else
  let splitPosition := splitPositionOf M t nodeIndex
  let part := splitParts M t nodeIndex
  if M.keyIsBox ∧ part.2.1 + part.2.2 < (elementCount + 3) / 4 then
    { t with elements := part.1 }
  else splitEmit M t nodeIndex pick.1 splitPosition part.1 part.2.1 part.2.2

/-- The worklist loop of `Build()`: pop the back of the queue, split, push
the children (low, then middle for box keys, then high). -/
def BuildLoop (M : TreeModel) [Inhabited M.Elem] :
    Nat → TreeState M → List Int → TreeState M
  | 0, t, _ => t
  | fuel + 1, t, q =>
    match q.getLast? with
    | none => t
    | some j =>
      let t1 := SplitNode M t j
      let nd := t1.node j
      let pushes :=
        (if nd.lowChild ≥ 0 then [nd.lowChild] else []) ++
        (if M.keyIsBox && nd.middleChild ≥ 0 then [nd.middleChild] else []) ++
        (if nd.highChild ≥ 0 then [nd.highChild] else [])
      BuildLoop M fuel t1 (q.dropLast ++ pushes)

/-- `Bound(elements, GetSpatialKey)`: fold `Box::Add` over the keys starting
from the default (empty) box. -/
def BoundKeys (M : TreeModel) (es : List M.Elem) : FBox :=
  es.foldl (fun b e => M.boundAdd b (M.getKey e)) emptyBox

/-- Fuel for the build worklist; generous (the C++ loop runs until the
queue empties, which always happens — each split either strictly shrinks
the element range of every scheduled node or tightens its box). -/
def buildFuel (n : Nat) : Nat := (n + 4) * (n + 4)

/-- `Create(elements)`: install the buffer, reset the arena to a single
root node covering `[0, N)` bounded by `Bound`, and run `Build()` when the
buffer is non-empty.  Note the root node is appended unconditionally. -/
def Create (M : TreeModel) [Inhabited M.Elem] (t : TreeState M) (es : List M.Elem) :
    TreeState M :=
  let root : Node :=
    { parent := -1, lowChild := -1, highChild := -1, elementsBegin := 0,
      elementsEnd := (es.length : Int), box := BoundKeys M es }
  let t1 : TreeState M := { t with elements := es, nodes := [root] }
  if es.isEmpty then t1 else BuildLoop M (buildFuel es.length) t1 [0]

/-- `OverlapWithNode(range, nodeIndex)` = `Overlap(range, nodes_[i].box)`. -/
def OverlapWithNode (M : TreeModel) (t : TreeState M) (range : FBox) (j : Int) : Bool :=
  Overlap range (t.node j).box

/-- `GetFirstChildOverlap`: first of low / middle / high child whose box
overlaps the range (the middle test is compiled only for box keys). -/
def GetFirstChildOverlap (M : TreeModel) (t : TreeState M) (j : Int) (range : FBox) : Int :=
  let nd := t.node j
  if nd.lowChild ≥ 0 && OverlapWithNode M t range nd.lowChild then nd.lowChild
  else if M.keyIsBox && nd.middleChild ≥ 0 && OverlapWithNode M t range nd.middleChild then
    nd.middleChild
  else if nd.highChild ≥ 0 && OverlapWithNode M t range nd.highChild then nd.highChild
  else -1

/-- `GetNextSiblingOverlap`: next sibling (low → middle → high order) whose
box overlaps the range. -/
def GetNextSiblingOverlap (M : TreeModel) (t : TreeState M) (j : Int) (range : FBox) : Int :=
  let nd := t.node j
  if nd.parent < 0 then -1
  else
    let pn := t.node nd.parent
    if M.keyIsBox && (j == pn.lowChild) && pn.middleChild ≥ 0 &&
        OverlapWithNode M t range pn.middleChild then
      pn.middleChild
    else if (j != pn.highChild) && pn.highChild ≥ 0 &&
        OverlapWithNode M t range pn.highChild then
      pn.highChild
    else -1

/-- The element indices held at node `j` that pass the per-element filter
`Overlap(range_, GetSpatialKey(element))` of `MoveToNextValid`. -/
def ownOverlap (M : TreeModel) [Inhabited M.Elem] (t : TreeState M) (Q : FBox) (j : Int) :
    List Int :=
  (intRange (t.node j).elementsBegin (t.node j).elementsEnd).filter fun i =>
    M.keyOverlap Q (treeKey M t i)

/-- The range-query walk of `RangeQueryIterator` / `MoveToNextValid`, run to
exhaustion.  `phase = true` visits node `j` (yield its own filtered elements,
then descend via `GetFirstChildOverlap`); `phase = false` is the sibling loop
at child `c` (`-1` returns to the parent, i.e. the recursion unwinds, exactly
the ascend step of the iterator).  Fuel only bounds the recursion depth and
is chosen sufficient below. -/
def rangeGo (M : TreeModel) [Inhabited M.Elem] (t : TreeState M) (Q : FBox) :
    Nat → Bool → Int → List Int → List Int
  | 0, _, _, acc => acc
  | fuel + 1, true, j, acc =>
    rangeGo M t Q fuel false (GetFirstChildOverlap M t j Q) (acc ++ ownOverlap M t Q j)
  | fuel + 1, false, c, acc =>
    if c < 0 then acc
    else rangeGo M t Q fuel false (GetNextSiblingOverlap M t c Q)
      (rangeGo M t Q fuel true c acc)

/-- Fuel sufficient for the full walk (5 steps per tree level, depth at most
the node count since child indices strictly increase). -/
def rangeFuel (M : TreeModel) (t : TreeState M) : Nat := 5 * t.nodes.length + 5

/-- The element indices yielded by iterating from `BeginRangeQuery(range)`
to `EndRangeQuery()`.  The iterator starts at the root when the arena is
non-empty (the root box itself is not tested against the range). -/
def RangeQueryList (M : TreeModel) [Inhabited M.Elem] (t : TreeState M) (Q : FBox) :
    List Int :=
  if t.nodes.isEmpty then [] else rangeGo M t Q (rangeFuel M t) true 0 []

/-- Error taxonomy of the spec (§7).  `QueryNearest` raises
`InvalidQueryBounds` through `ASSERT(nearestCount > 0 || maxDistance > 0)`. -/
inductive QueryError where
  | invalidQueryBounds
deriving DecidableEq, Repr

/-- The running upper bound `worstDistance2`: `⊤` models
`std::numeric_limits<ScalarType>::max()` (every distance arising in the
model is below it). -/
abbrev Worst : Type := WithTop ℚ

/-- `distance2 <= worstDistance2` (false when the distance is NaN). -/
def dleW : F → Worst → Bool
  | some q, w => decide ((q : Worst) ≤ w)
  | none, _ => false

/-- `Square(...) < worstDistance2` (false when the square is NaN). -/
def dltW : F → Worst → Bool
  | some q, w => decide ((q : Worst) < w)
  | none, _ => false

/-- Read a stored (always finite) distance back as a bound. -/
def toWorst : F → Worst
  | some q => (q : Worst)
  | none => ⊤

/-- The nearest-query accumulator: the sorted result list and
`worstDistance2`. -/
structure NearSt where
  result : List (Int × F)
  worst : Worst

/-- `std::lower_bound(result.begin(), result.end(), d, pair.second < v)`
followed by the insertion: place the new pair before the first entry whose
distance is not `< d`. -/
def insertLB (res : List (Int × F)) (p : Int × F) : List (Int × F) :=
  match res with
  | [] => [p]
  | q :: rest => if flt q.2 p.2 then q :: insertLB rest p else p :: q :: rest

/-- The per-element body of `QueryNearest`: distance test against
`worstDistance2`, eviction of the current worst when the list is full,
ordered insertion, and tightening of `worstDistance2`. -/
def considerElement (M : TreeModel) [Inhabited M.Elem] (t : TreeState M) (loc : Vec)
    (nearestCount : Int) (st : NearSt) (i : Int) : NearSt :=
  let d := M.keyDist2 loc (treeKey M t i)
  if dleW d st.worst then
    let res1 := if nearestCount > 0 ∧ (st.result.length : Int) = nearestCount then
        st.result.dropLast else st.result
    let res2 := insertLB res1 (i, d)
    let w2 := if nearestCount > 0 ∧ (res2.length : Int) = nearestCount then
        toWorst ((res2.getLast?.getD (0, none)).2) else st.worst
    ⟨res2, w2⟩
  else st

/-- Fold the per-element body over the elements held at node `j`. -/
def nearNodeElements (M : TreeModel) [Inhabited M.Elem] (t : TreeState M) (loc : Vec)
    (nearestCount : Int) (j : Int) (st : NearSt) : NearSt :=
  (intRange (t.node j).elementsBegin (t.node j).elementsEnd).foldl
    (considerElement M t loc nearestCount) st

/-- `GetLeftOrRightNear`: the child on the target's side of the split plane
if present, otherwise the other side when the squared plane distance beats
`worstDistance2`. -/
def GetLeftOrRightNear (nd : Node) (loc : Vec) (worst : Worst) : Int :=
  let la := vget loc nd.splitAxis.toNat
  if flt la nd.splitPosition then
    if nd.lowChild ≥ 0 then nd.lowChild
    else if nd.highChild ≥ 0 && dltW (fsquare (fsub nd.splitPosition la)) worst then
      nd.highChild
    else -1
  else
    if nd.highChild ≥ 0 then nd.highChild
    else if nd.lowChild ≥ 0 && dltW (fsquare (fsub la nd.splitPosition)) worst then
      nd.lowChild
    else -1

/-- `GetFirstChildNear`: the middle child first (box keys), else the
plane-guided choice; `-1` at leaves. -/
def GetFirstChildNear (M : TreeModel) (t : TreeState M) (j : Int) (loc : Vec)
    (worst : Worst) : Int :=
  let nd := t.node j
  if nd.splitAxis < 0 then -1
  else if M.keyIsBox && nd.middleChild ≥ 0 then nd.middleChild
  else GetLeftOrRightNear nd loc worst

/-- `GetNextSiblingNear`: from the middle child continue with the
plane-guided choice; from the near side continue with the far side when the
plane distance beats `worstDistance2`; from the far side stop. -/
def GetNextSiblingNear (M : TreeModel) (t : TreeState M) (j : Int) (loc : Vec)
    (worst : Worst) : Int :=
  let nd := t.node j
  if nd.parent < 0 then -1
  else
    let pn := t.node nd.parent
    if M.keyIsBox && (j == pn.middleChild) then GetLeftOrRightNear pn loc worst
    else if j == pn.lowChild then
      let la := vget loc pn.splitAxis.toNat
      if fge la pn.splitPosition then -1
      else if pn.highChild ≥ 0 && dltW (fsquare (fsub pn.splitPosition la)) worst then
        pn.highChild
      else -1
    else
      let la := vget loc pn.splitAxis.toNat
      if flt la pn.splitPosition then -1
      else if pn.lowChild ≥ 0 && dltW (fsquare (fsub la pn.splitPosition)) worst then
        pn.lowChild
      else -1

/-- The traversal loop of `QueryNearest`, in the same two-phase shape as
`rangeGo`; the accumulator threads the result list and `worstDistance2`
through the walk, so every pruning decision uses the bound current at that
moment, as in the source. -/
def nearGo (M : TreeModel) [Inhabited M.Elem] (t : TreeState M) (loc : Vec)
    (nearestCount : Int) : Nat → Bool → Int → NearSt → NearSt
  | 0, _, _, st => st
  | fuel + 1, true, j, st =>
    let st1 := nearNodeElements M t loc nearestCount j st
    nearGo M t loc nearestCount fuel false (GetFirstChildNear M t j loc st1.worst) st1
  | fuel + 1, false, c, st =>
    if c < 0 then st
    else
      let st1 := nearGo M t loc nearestCount fuel true c st
      nearGo M t loc nearestCount fuel false (GetNextSiblingNear M t c loc st1.worst) st1

/-- `QueryNearest(targetLocation, nearestCount = 0, maxDistance = -1)`.
The leading `ASSERT(nearestCount > 0 || maxDistance > 0)` throws, modelled
as the `InvalidQueryBounds` error of the spec's taxonomy. -/
def QueryNearest (M : TreeModel) [Inhabited M.Elem] (t : TreeState M) (loc : Vec)
    (nearestCount : Int) (maxDistance : ℚ) : Except QueryError (List (Int × F)) :=
  if ¬(nearestCount > 0 ∨ maxDistance > 0) then .error .invalidQueryBounds
  else
    let worst : Worst := if maxDistance > 0 then ((maxDistance * maxDistance : ℚ) : Worst) else ⊤
    if t.nodes.isEmpty then .ok []
    else .ok (nearGo M t loc nearestCount (rangeFuel M t) true 0 ⟨[], worst⟩).result

/-! ### Well-formedness predicates -/

/-- `j` is a valid arena index. -/
def validIdx {M : TreeModel} (t : TreeState M) (j : Int) : Prop :=
  0 ≤ j ∧ j < (t.nodes.length : Int)

/-- The three child slots of a node, in traversal order low, middle, high. -/
def slotsOf (nd : Node) : List Int := [nd.lowChild, nd.middleChild, nd.highChild]

/-- Boolean ownership test used for the disjoint-cover invariant. -/
def ownsB (i : Int) (nd : Node) : Bool := nd.elementsBegin ≤ i && i < nd.elementsEnd

/-- Node `x` holds buffer index `i` in its element range. -/
def owns {M : TreeModel} (t : TreeState M) (x i : Int) : Prop :=
  validIdx t x ∧ (t.node x).elementsBegin ≤ i ∧ i < (t.node x).elementsEnd

/-- The chain of `parent` links starting at `x` (inclusive); the fuel
`x.toNat + 1` always suffices because the guard forces the index to
strictly decrease. -/
def ancF {M : TreeModel} (t : TreeState M) : Nat → Int → List Int
  | 0, _ => []
  | fuel + 1, x =>
    x :: (if 0 ≤ (t.node x).parent ∧ (t.node x).parent < x then
      ancF t fuel (t.node x).parent else [])

/-- The ancestor chain (self included) of node `x`. -/
def anc {M : TreeModel} (t : TreeState M) (x : Int) : List Int := ancF t (x.toNat + 1) x

/-- Structural well-formedness of the arena, an invariant of `Create`:
the claims about parent/child links, ranges and the disjoint cover of the
element buffer. -/
structure WFS (M : TreeModel) (t : TreeState M) : Prop where
  nodes_ne : t.nodes ≠ []
  mpos : 1 ≤ t.maxElementsPerNode
  root_parent : (t.node 0).parent = -1
  parent_lt : ∀ j : Int, validIdx t j → j ≠ 0 →
    0 ≤ (t.node j).parent ∧ (t.node j).parent < j
  child_valid : ∀ j : Int, validIdx t j → ∀ c ∈ slotsOf (t.node j), c ≠ -1 →
    j < c ∧ c < (t.nodes.length : Int)
  child_parent : ∀ j : Int, validIdx t j → ∀ c ∈ slotsOf (t.node j), c ≠ -1 →
    (t.node c).parent = j
  child_of_parent : ∀ c : Int, validIdx t c → c ≠ 0 →
    c ∈ slotsOf (t.node (t.node c).parent)
  slots_count : ∀ j : Int, validIdx t j → ∀ c ∈ slotsOf (t.node j), c ≠ -1 →
    (slotsOf (t.node j)).count c = 1
  ranges_ok : ∀ j : Int, validIdx t j →
    ((t.node j).elementsBegin = -1 ∧ (t.node j).elementsEnd = -1) ∨
    (0 ≤ (t.node j).elementsBegin ∧ (t.node j).elementsBegin ≤ (t.node j).elementsEnd ∧
      (t.node j).elementsEnd ≤ (t.elements.length : Int))
  cover : ∀ i : Int, 0 ≤ i → i < (t.elements.length : Int) →
    t.nodes.countP (ownsB i) = 1
  unsplit : ∀ j : Int, validIdx t j →
    t.maxElementsPerNode < (t.node j).elementCount → slotsOf (t.node j) = [-1, -1, -1]

/-- A spatial key all of whose bounds are finite and ordered (the `Box`
constructor asserts `min <= max`, and `Bound`/`Box::Add` assert non-NaN
input, so every key handed to the tree satisfies this). -/
def ValidKey (M : TreeModel) (k : M.Key) : Prop :=
  ∀ a ∈ axes, isQ (M.lowBound k a) ∧ isQ (M.highBound k a) ∧
    fle (M.lowBound k a) (M.highBound k a) = true

/-- The key's bounds lie inside the box on every axis. -/
def InKeyBox (M : TreeModel) (k : M.Key) (b : FBox) : Prop :=
  ∀ a ∈ axes, fle (vget b.bmin a) (M.lowBound k a) = true ∧
    fle (M.highBound k a) (vget b.bmax a) = true

/-- `b` is contained in `c` axis by axis. -/
def BoxSub (b c : FBox) : Prop :=
  ∀ a ∈ axes, fle (vget c.bmin a) (vget b.bmin a) = true ∧
    fle (vget b.bmax a) (vget c.bmax a) = true

/-- A box with finite, ordered corners. -/
def ProperBox (b : FBox) : Prop :=
  ∀ a ∈ axes, isQ (vget b.bmin a) ∧ isQ (vget b.bmax a) ∧
    fle (vget b.bmin a) (vget b.bmax a) = true

/-- A box with finite corners (no NaN), not necessarily ordered. -/
def FiniteBox (b : FBox) : Prop :=
  ∀ a ∈ axes, isQ (vget b.bmin a) ∧ isQ (vget b.bmax a)

instance (x : F) : Decidable (isQ x) := by unfold isQ; infer_instance

instance (b : FBox) : Decidable (FiniteBox b) := by unfold FiniteBox; infer_instance

instance (b : FBox) : Decidable (ProperBox b) := by unfold ProperBox; infer_instance

instance (b c : FBox) : Decidable (BoxSub b c) := by unfold BoxSub; infer_instance

instance (M : TreeModel) (k : M.Key) : Decidable (ValidKey M k) := by
  unfold ValidKey; infer_instance

instance (M : TreeModel) (k : M.Key) (b : FBox) : Decidable (InKeyBox M k b) := by
  unfold InKeyBox; infer_instance

instance {M : TreeModel} (t : TreeState M) (j : Int) : Decidable (validIdx t j) := by
  unfold validIdx; infer_instance

/-- The arena-link well-formedness maintained by `Create`/`Build`: the arena
is non-empty, every non-root node's parent is an earlier valid node, and
every set child slot points to a later valid node. -/
def arenaWF {M : TreeModel} (t : TreeState M) : Prop :=
  t.nodes ≠ [] ∧
  (∀ j : Int, validIdx t j → j ≠ 0 →
    0 ≤ (t.node j).parent ∧ (t.node j).parent < j) ∧
  (∀ j : Int, validIdx t j → ∀ c ∈ slotsOf (t.node j), c ≠ -1 →
    j < c ∧ c < (t.nodes.length : Int))

/-- Geometric well-formedness, an invariant of `Create` on valid inputs:
every node's box contains the keys of its element range, children boxes are
contained in their parent's, and all boxes are proper. -/
structure WFB (M : TreeModel) [Inhabited M.Elem] (t : TreeState M) : Prop where
  keys_valid : ∀ e ∈ t.elements, ValidKey M (M.getKey e)
  box_contains : ∀ j : Int, validIdx t j → ∀ i : Int,
    (t.node j).elementsBegin ≤ i → i < (t.node j).elementsEnd →
    InKeyBox M (treeKey M t i) (t.node j).box
  child_sub : ∀ j : Int, validIdx t j → ∀ c ∈ slotsOf (t.node j), c ≠ -1 →
    BoxSub (t.node c).box (t.node j).box
  box_proper : ∀ j : Int, validIdx t j → 0 < t.elements.length →
    ProperBox (t.node j).box

/-- The facts about a key model used by the generic theorems; proved below
for the two instantiations occurring in the program. -/
structure ModelOK (M : TreeModel) : Prop where
  overlap_mono : ∀ (Q : FBox) (k : M.Key) (nb : FBox), ValidKey M k →
    InKeyBox M k nb → M.keyOverlap Q k = true → Overlap Q nb = true
  boundAdd_self : ∀ (b : FBox) (k : M.Key), ValidKey M k → InKeyBox M k (M.boundAdd b k)
  boundAdd_mono : ∀ (b : FBox) (k k2 : M.Key), ValidKey M k →
    InKeyBox M k2 b → InKeyBox M k2 (M.boundAdd b k)
  boundAdd_proper : ∀ (b : FBox) (k : M.Key), ValidKey M k → ProperBox (M.boundAdd b k)
  default_overlap : ∀ k : M.Key, M.keyOverlap emptyBox k = true

/-! ### Concrete instances used as counterexamples, failing inputs and
witnesses -/

/-- The box `[5,10] × [0,1]` — entirely on the high side of `x = 5`. -/
def exB0 : FBox := ⟨(some 5, some 0), (some 10, some 1)⟩

/-- The box `[0,10] × [0,1]` — straddles the plane `x = 5`. -/
def exB1 : FBox := ⟨(some 0, some 0), (some 10, some 1)⟩

/-- Building with `maxElementsPerNode = 1` from `[exB0, exB1]` exercises the
terminal case of `PartitionBoxes` in which the forward scan stops on a High
element below an already scanned Middle element. -/
def exTreeBug : TreeState boxModel := Create boxModel (mkTree boxModel 1) [exB0, exB1]

/-- The state of the root just before `SplitNode 0` during the build of
`exTreeBug` (used to exhibit the split-axis choice). -/
def exPre : TreeState boxModel :=
  { elements := [exB0, exB1],
    nodes := [{ parent := -1, elementsBegin := 0, elementsEnd := 2,
                box := ⟨(some 0, some 0), (some 10, some 1)⟩ }],
    maxElementsPerNode := 1 }

/-- The unit box `[0,1] × [0,1]`. -/
def unitBox : FBox := ⟨(some 0, some 0), (some 1, some 1)⟩

/-- A tree created from the empty element sequence. -/
def emptyTreeEx : TreeState pointModel := Create pointModel (mkTree pointModel 4) []

/-- A small concrete point data set. -/
def wPts : List Vec := [(some 0, some 0), (some 0, some 1), (some 1, some 0), (some 1, some 1)]

/-- A small concrete point tree (`maxElementsPerNode = 1`). -/
def wTree : TreeState pointModel := Create pointModel (mkTree pointModel 1) wPts

/-- A concrete query box. -/
def wQ : FBox := ⟨(some (-1), some (-1)), (some (1/2), some (1/2))⟩

/-! ### Theorems -/

/-- C9 (counterexample): `Overlap` is *not* equivalent to the axiswise
bound comparison for all boxes: the default (empty, NaN-cornered) box
overlaps the unit box because every NaN comparison is false, while
`a.max[i] >= b.min[i]` fails on NaN. -/
theorem C9_overlap_counterexample :
    ¬(Overlap emptyBox unitBox = true ↔ ∀ i ∈ axes,
      fge (vget emptyBox.bmax i) (vget unitBox.bmin i) = true ∧
      fle (vget emptyBox.bmin i) (vget unitBox.bmax i) = true) := by
  decide

/-- C9 (amended): for boxes with non-NaN coordinates, `Overlap(a, b)` is
true iff on every axis `a.max[i] >= b.min[i]` and `a.min[i] <= b.max[i]`
(closed intervals on both sides). -/
theorem C9_overlap_iff_finite (a b : FBox) (ha : FiniteBox a) (hb : FiniteBox b) :
    Overlap a b = true ↔ ∀ i ∈ axes,
      fge (vget a.bmax i) (vget b.bmin i) = true ∧
      fle (vget a.bmin i) (vget b.bmax i) = true := by
  unfold Overlap
  rw [List.all_eq_true]
  refine forall₂_congr fun i hi => ?_
  obtain ⟨qam, ham⟩ := Option.isSome_iff_exists.mp (ha i hi).2
  obtain ⟨qan, han⟩ := Option.isSome_iff_exists.mp (ha i hi).1
  obtain ⟨qbm, hbm⟩ := Option.isSome_iff_exists.mp (hb i hi).2
  obtain ⟨qbn, hbn⟩ := Option.isSome_iff_exists.mp (hb i hi).1
  simp [flt, fle, fge, fgt, ham, han, hbm, hbn, not_lt, le_of_lt]

/-- C9 (witness for the amended theorem at a concrete input). -/
theorem C9_overlap_iff_finite_witness :
    FiniteBox unitBox ∧
    (Overlap unitBox unitBox = true ↔ ∀ i ∈ axes,
      fge (vget unitBox.bmax i) (vget unitBox.bmin i) = true ∧
      fle (vget unitBox.bmin i) (vget unitBox.bmax i) = true) :=
  ⟨by decide, C9_overlap_iff_finite unitBox unitBox (by decide) (by decide)⟩

/-- C7 (counterexample): constructing the tree with
`max_elements_per_node <= 0` does not fail — the constructor silently
substitutes the default `MaxElementsPerNode = 64` and the tree is usable. -/
theorem C7_ctor_counterexample :
    (mkTree pointModel (-5)).maxElementsPerNode = 64 ∧
    (mkTree pointModel 0).maxElementsPerNode = 64 ∧
    (Create pointModel (mkTree pointModel 0) [((some 0, some 0) : Vec)]).elements.length = 1 := by
  decide

/-- C7 (amended): a non-positive `maxElementsPerNode` argument selects the
default `MaxElementsPerNode = 64`; a positive one is used as given.  No
error is raised in either case. -/
theorem C7_ctor_defaults (M : TreeModel) (m : Int) :
    (mkTree M m).maxElementsPerNode = if m > 0 then m else 64 := rfl

/-- C6: a nearest query with `nearestCount == 0` and `maxDistance <= 0`
fails fast with `InvalidQueryBounds` for every tree state, target and
non-positive distance bound. -/
theorem C6_invalid_query_bounds (M : TreeModel) [Inhabited M.Elem] (t : TreeState M)
    (loc : Vec) (maxDistance : ℚ) (h : maxDistance ≤ 0) :
    QueryNearest M t loc 0 maxDistance = .error .invalidQueryBounds := by
  unfold QueryNearest
  rw [if_pos]
  rintro (h0 | hm)
  · exact absurd h0 (by decide)
  · exact absurd h (not_le.mpr hm)

/-- C6 (witness). -/
theorem C6_invalid_query_bounds_witness :
    (-1 : ℚ) ≤ 0 ∧
    QueryNearest pointModel emptyTreeEx (some 0, some 0) 0 (-1) =
      .error .invalidQueryBounds :=
  ⟨by norm_num, C6_invalid_query_bounds pointModel emptyTreeEx (some 0, some 0) (-1) (by norm_num)⟩

/-- C2 (failing input): on the tree built from `[exB0, exB1]` with
`maxElementsPerNode = 1`, the nearest query from `(0, 1/2)` with `k = 1`
returns element 0 at squared distance 25, although element 1 (the box
`[0,10] × [0,1]`, still stored at buffer index 1) contains the target and
has squared distance 0.  The sorted-by-distance prefix of length 1 would be
element 1.  Root cause: the terminal case of `PartitionBoxes` swaps with
`highEnd - 1` instead of `highEnd`, so the straddling box lands in the high
child and the high box in the middle bucket, and the split-plane pruning of
`QueryNearest` then discards the straddling box. -/
theorem C2_nearest_failing_input :
    QueryNearest boxModel exTreeBug (some 0, some (1/2)) 1 (-1) = .ok [(0, some 25)] ∧
    iget exTreeBug.elements 1 = exB1 ∧
    GetDistanceSquaredBox (some 0, some (1/2)) exB1 = some 0 ∧
    flt (some 0) (some 25) = true := by
  refine ⟨?_, ?_, ?_, ?_⟩ <;> with_unfolding_all rfl

/-- C3 (failing input): in the same tree, the root was split on axis 0 at
position 5, and its high child (node 1) holds element 1 whose low bound on
axis 0 is 0 < 5 — contradicting "every element reachable through the high
child has `low_bound(key, a) >= s`".  (The element with `low_bound = 5` sits
in the middle bucket instead.) -/
theorem C3_partition_failing_input :
    (exTreeBug.node 0).splitAxis = 0 ∧
    (exTreeBug.node 0).splitPosition = some 5 ∧
    (exTreeBug.node 0).highChild = 1 ∧
    (exTreeBug.node 1).elementsBegin = 1 ∧
    (exTreeBug.node 1).elementsEnd = 2 ∧
    boxModel.lowBound (treeKey boxModel exTreeBug 1) 0 = some 0 ∧
    flt (boxModel.lowBound (treeKey boxModel exTreeBug 1) 0)
      ((exTreeBug.node 0).splitPosition) = true := by
  refine ⟨?_, ?_, ?_, ?_, ?_, ?_, ?_⟩ <;> with_unfolding_all rfl

/-- C5 (counterexample): after `Create` on the empty element sequence the
arena still contains the root node, so `node_count >= 1` does *not* imply
`element_count >= 1`. -/
theorem C5_arena_counterexample :
    emptyTreeEx.elements.length = 0 ∧ emptyTreeEx.nodes.length = 1 ∧
    ¬((1 ≤ emptyTreeEx.nodes.length) ↔ (1 ≤ emptyTreeEx.elements.length)) := by
  decide

/-! ### Access lemmas for the list primitives -/

lemma iget_pos {α : Type} [Inhabited α] (l : List α) (i : Int) (h0 : 0 ≤ i)
    (h1 : i.toNat < l.length) : iget l i = l.get ⟨i.toNat, h1⟩ := by
  unfold iget
  rw [dif_pos ⟨h0, h1⟩]

lemma iget_out {α : Type} [Inhabited α] (l : List α) (i : Int)
    (h : ¬(0 ≤ i ∧ i.toNat < l.length)) : iget l i = default := by
  unfold iget
  rw [dif_neg h]

lemma iget_append_left {α : Type} [Inhabited α] (l l' : List α) (i : Int)
    (h1 : i.toNat < l.length) : iget (l ++ l') i = iget l i := by
  by_cases h0 : 0 ≤ i
  · rw [iget_pos _ _ h0 h1, iget_pos _ _ h0 (by simp; omega)]
    simp only [List.get_eq_getElem]
    exact List.getElem_append_left h1
  · rw [iget_out _ _ (by tauto), iget_out _ _ (by tauto)]

lemma iget_append_new {α : Type} [Inhabited α] (l : List α) (a : α) :
    iget (l ++ [a]) (l.length : Int) = a := by
  rw [iget_pos _ _ (by positivity) (by simp)]
  simp [List.get_eq_getElem]

lemma iget_neg_out {α : Type} [Inhabited α] (l : List α) (i : Int) (h : i < 0) :
    iget l i = default := iget_out l i (by omega)

lemma length_listSwap {α : Type} [Inhabited α] (l : List α) (i j : Int) :
    (listSwap l i j).length = l.length := by
  unfold listSwap
  split <;> simp

lemma cons_set_perm {α : Type} (t : List α) (k : Nat) (hk : k < t.length) (a : α) :
    (t.get ⟨k, hk⟩ :: t.set k a).Perm (a :: t) := by
  have hdecomp : t = t.take k ++ t.get ⟨k, hk⟩ :: t.drop (k + 1) := by
    conv_lhs => rw [← t.take_append_drop k]
    congr 1
    simp only [List.get_eq_getElem]
    exact (List.getElem_cons_drop t k hk).symm
  rw [List.set_eq_take_cons_drop a hk]
  refine List.Perm.trans (List.Perm.cons _ List.perm_middle) ?_
  refine List.Perm.trans (List.Perm.swap _ _ _) ?_
  refine List.Perm.cons _ ?_
  conv_rhs => rw [hdecomp]
  exact List.perm_middle.symm

lemma set_set_swap_perm {α : Type} :
    ∀ (l : List α) (n m : Nat) (hn : n < l.length) (hm : m < l.length),
      ((l.set n (l.get ⟨m, hm⟩)).set m (l.get ⟨n, hn⟩)).Perm l
  | a :: t, 0, 0, _, _ => by simp
  | a :: t, 0, m + 1, hn, hm => by
    simpa using cons_set_perm t m (by simpa using hm) a
  | a :: t, n + 1, 0, hn, hm => by
    simp only [List.get_eq_getElem, List.getElem_cons_succ, List.getElem_cons_zero,
      List.set_cons_succ, List.set_cons_zero]
    exact ((cons_set_perm t n (by simpa using hn) a).symm.trans (List.Perm.refl _)).symm
  | a :: t, n + 1, m + 1, hn, hm => by
    simp only [List.get_eq_getElem, List.getElem_cons_succ, List.set_cons_succ]
    exact List.Perm.cons a (set_set_swap_perm t n m (by simpa using hn) (by simpa using hm))

lemma listSwap_perm {α : Type} [Inhabited α] (l : List α) (i j : Int) :
    (listSwap l i j).Perm l := by
  unfold listSwap
  split
  · rename_i h
    obtain ⟨h0, h1, h2, h3⟩ := h
    rw [iget_pos _ _ h0 h1, iget_pos _ _ h2 h3]
    exact set_set_swap_perm l i.toNat j.toNat h1 h3
  · exact List.Perm.refl l

lemma iget_listSwap_other {α : Type} [Inhabited α] (l : List α) (i j k : Int)
    (hki : k ≠ i) (hkj : k ≠ j) : iget (listSwap l i j) k = iget l k := by
  unfold listSwap
  split
  · rename_i h
    obtain ⟨h0, h1, h2, h3⟩ := h
    by_cases hk : 0 ≤ k ∧ k.toNat < l.length
    · rw [iget_pos _ _ hk.1 (by simpa using hk.2), iget_pos _ _ hk.1 hk.2]
      simp only [List.get_eq_getElem]
      rw [List.getElem_set_ne (by omega), List.getElem_set_ne (by omega)]
    · rw [iget_out _ _ (by simpa using hk), iget_out _ _ hk]
  · rfl

lemma mem_intRange (b e i : Int) : i ∈ intRange b e ↔ b ≤ i ∧ i < e := by
  unfold intRange
  simp only [List.mem_map, List.mem_range]
  constructor
  · rintro ⟨k, hk, hik⟩
    omega
  · rintro ⟨h1, h2⟩
    exact ⟨(i - b).toNat, by omega, by omega⟩

lemma nodup_intRange (b e : Int) : (intRange b e).Nodup := by
  unfold intRange
  apply List.Nodup.map
  · intro x y h
    have h2 : b + (x : Int) = b + (y : Int) := h
    omega
  · exact List.nodup_range _

lemma length_intRange (b e : Int) : (intRange b e).length = (e - b).toNat := by
  unfold intRange
  rw [List.length_map, List.length_range]

lemma length_updNode (ns : List Node) (j : Int) (f : Node → Node) :
    (updNode ns j f).length = ns.length := by
  unfold updNode
  split <;> simp

lemma updNode_self (ns : List Node) (j : Int) (f : Node → Node) (h0 : 0 ≤ j)
    (h1 : j.toNat < ns.length) : iget (updNode ns j f) j = f (iget ns j) := by
  unfold updNode
  rw [if_pos h0, iget_pos _ _ h0 (by simpa using h1)]
  simp only [List.get_eq_getElem]
  rw [List.getElem_set_self]

lemma updNode_other (ns : List Node) (j : Int) (f : Node → Node) (i : Int) (hij : i ≠ j) :
    iget (updNode ns j f) i = iget ns i := by
  unfold updNode
  split
  · by_cases hk : 0 ≤ i ∧ i.toNat < ns.length
    · rw [iget_pos _ _ hk.1 (by simpa using hk.2), iget_pos _ _ hk.1 hk.2]
      simp only [List.get_eq_getElem]
      rw [List.getElem_set_ne (by omega)]
    · rw [iget_out _ _ (by simpa using hk), iget_out _ _ hk]
  · rfl

lemma node_upd_append_self (ns : List Node) (j : Int) (f : Node → Node) (rest : List Node)
    (h0 : 0 ≤ j) (h1 : j.toNat < ns.length) :
    iget (updNode ns j f ++ rest) j = f (iget ns j) := by
  rw [iget_append_left _ _ _ (by rw [length_updNode]; exact h1), updNode_self _ _ _ h0 h1]

lemma node_upd_append_other (ns : List Node) (j : Int) (f : Node → Node) (rest : List Node)
    (i : Int) (hij : i ≠ j) (h1 : i.toNat < ns.length) :
    iget (updNode ns j f ++ rest) i = iget ns i := by
  rw [iget_append_left _ _ _ (by rw [length_updNode]; exact h1), updNode_other _ _ _ _ hij]

/-! ### Facts about the IEEE-style comparisons -/

lemma flt_none_left (y : F) : flt none y = false := rfl

lemma flt_irrefl (x : F) : flt x x = false := by
  cases x <;> simp [flt]

lemma fgt_irrefl (x : F) : fgt x x = false := by
  cases x <;> simp [fgt, flt]

lemma fgt_true_elim {x y : F} (h : fgt x y = true) :
    ∃ qx qy, x = some qx ∧ y = some qy ∧ qy < qx := by
  cases x with
  | none => simp [fgt, flt] at h
  | some qx =>
    cases y with
    | none => simp [fgt, flt] at h
    | some qy =>
      simp only [fgt, flt, decide_eq_true_eq] at h
      exact ⟨qx, qy, rfl, rfl, h⟩

lemma fgt_asymm {x y : F} (h : fgt x y = true) : fgt y x = false := by
  obtain ⟨qx, qy, rfl, rfl, hlt⟩ := fgt_true_elim h
  simp only [fgt, flt, decide_eq_false_iff_not]
  exact not_lt.mpr hlt.le

lemma fgt_trans {x y z : F} (h1 : fgt x y = true) (h2 : fgt y z = true) :
    fgt x z = true := by
  obtain ⟨qx, qy, rfl, rfl, ha⟩ := fgt_true_elim h1
  obtain ⟨qy2, qz, hy, rfl, hb⟩ := fgt_true_elim h2
  obtain rfl : qy = qy2 := by injection hy
  simp only [fgt, flt, decide_eq_true_eq]
  exact hb.trans ha

lemma fle_refl_of_isQ {x : F} (h : isQ x) : fle x x = true := by
  obtain ⟨q, rfl⟩ := Option.isSome_iff_exists.mp h
  simp [fle]

lemma fle_trans {x y z : F} (h1 : fle x y = true) (h2 : fle y z = true) :
    fle x z = true := by
  cases x <;> cases y <;> cases z <;> simp_all [fle]
  exact le_trans h1 h2

lemma fle_some_ex {x y : F} (h : fle x y = true) :
    ∃ qx qy, x = some qx ∧ y = some qy ∧ qx ≤ qy := by
  cases x <;> cases y <;> simp_all [fle]

/-- `pickSplitAxis` computed in closed form for the two axes. -/
lemma pickSplitAxis_eq (sizes : Vec) (nd : Node) :
    pickSplitAxis sizes nd =
      if fgt (vget sizes 0) (some 0) && !(nd.isAxisLocked 0) then
        (if fgt (vget sizes 1) (vget sizes 0) && !(nd.isAxisLocked 1) then
          ((1 : Int), vget sizes 1) else ((0 : Int), vget sizes 0))
      else
        (if fgt (vget sizes 1) (some 0) && !(nd.isAxisLocked 1) then
          ((1 : Int), vget sizes 1) else ((-1 : Int), some 0)) := by
  unfold pickSplitAxis axes
  simp only [List.foldl]
  by_cases h0 : fgt (vget sizes 0) (some 0) && !(nd.isAxisLocked 0) <;> simp [h0]

set_option maxHeartbeats 1000000 in
/-- C8: the split-axis choice and split position of `SplitNode`.
(a) no axis is chosen iff every axis is locked or has non-positive extent;
(b) with no qualifying axis the node is left as a leaf (`SplitNode` is the
identity), as it is when the node is small enough;
(c) the chosen axis is unlocked, has positive extent, and no unlocked axis
has a strictly larger extent;
(d) when the split is actually performed (node over capacity, an axis
chosen, and — for box keys — the admission check passed), the node's
`splitAxis` is the chosen axis and `splitPosition` is the midpoint
`node.box.min[axis] + maxSize / 2`. -/
theorem C8_split_axis_and_position (M : TreeModel) [Inhabited M.Elem]
    (t : TreeState M) (j : Int) :
    ((pickSplitAxis (boxSizes (t.node j).box) (t.node j)).1 = -1 ↔
      ∀ a ∈ axes, (t.node j).isAxisLocked a = true ∨
        fgt (vget (boxSizes (t.node j).box) a) (some 0) = false) ∧
    ((pickSplitAxis (boxSizes (t.node j).box) (t.node j)).1 = -1 → SplitNode M t j = t) ∧
    ((t.node j).elementCount ≤ t.maxElementsPerNode → SplitNode M t j = t) ∧
    (∀ a : Nat, (pickSplitAxis (boxSizes (t.node j).box) (t.node j)).1 = (a : Int) →
      a ∈ axes ∧ (t.node j).isAxisLocked a = false ∧
      fgt (vget (boxSizes (t.node j).box) a) (some 0) = true ∧
      (pickSplitAxis (boxSizes (t.node j).box) (t.node j)).2 =
        vget (boxSizes (t.node j).box) a ∧
      (∀ b ∈ axes, (t.node j).isAxisLocked b = false →
        fgt (vget (boxSizes (t.node j).box) b) (vget (boxSizes (t.node j).box) a) = false)) ∧
    (splitPositionOf M t j =
      fadd (vget (t.node j).box.bmin (pickSplitAxis (boxSizes (t.node j).box) (t.node j)).1.toNat)
        (fdiv (pickSplitAxis (boxSizes (t.node j).box) (t.node j)).2 (some 2))) ∧
    (validIdx t j → t.maxElementsPerNode < (t.node j).elementCount →
      0 ≤ (pickSplitAxis (boxSizes (t.node j).box) (t.node j)).1 →
      ¬(M.keyIsBox = true ∧ (splitParts M t j).2.1 + (splitParts M t j).2.2 <
          ((t.node j).elementCount + 3) / 4) →
      ((SplitNode M t j).node j).splitAxis =
        (pickSplitAxis (boxSizes (t.node j).box) (t.node j)).1 ∧
      ((SplitNode M t j).node j).splitPosition = splitPositionOf M t j) := by
  have condFalse : ∀ {x y : Bool}, ¬(x && !y) = true → y = true ∨ x = false := by
    intro x y h
    cases x <;> cases y <;> simp_all
  have condFalse2 : ∀ {x y : Bool}, ¬(x && !y) = true → y = false → x = false := by
    intro x y h hy
    cases x <;> simp_all
  have condTrue : ∀ {x y : Bool}, (x && !y) = true → x = true ∧ y = false := by
    intro x y h
    cases x with
    | false => exact absurd h (by simp)
    | true =>
      cases y with
      | false => exact ⟨rfl, rfl⟩
      | true => exact absurd h (by simp)
  refine ⟨?_, ?_, ?_, ?_, rfl, ?_⟩
  · rw [pickSplitAxis_eq]
    by_cases h0 : (fgt (vget (boxSizes (t.node j).box) 0) (some 0) &&
        !((t.node j).isAxisLocked 0)) = true
    · rw [if_pos h0]
      obtain ⟨hg0, hl0⟩ := condTrue h0
      refine iff_of_false (by split <;> simp) ?_
      intro hall
      rcases hall 0 (by decide) with h | h
      · rw [hl0] at h
        exact absurd h (by decide)
      · rw [hg0] at h
        exact absurd h (by decide)
    · rw [if_neg h0]
      by_cases h1b : (fgt (vget (boxSizes (t.node j).box) 1) (some 0) &&
          !((t.node j).isAxisLocked 1)) = true
      · rw [if_pos h1b]
        obtain ⟨hg1, hl1⟩ := condTrue h1b
        refine iff_of_false (by simp) ?_
        intro hall
        rcases hall 1 (by decide) with h | h
        · rw [hl1] at h
          exact absurd h (by decide)
        · rw [hg1] at h
          exact absurd h (by decide)
      · rw [if_neg h1b]
        refine iff_of_true rfl ?_
        intro a ha
        have ha2 : a = 0 ∨ a = 1 := by simpa [axes] using ha
        rcases ha2 with rfl | rfl
        · exact condFalse h0
        · exact condFalse h1b
  · intro h
    unfold SplitNode
    by_cases hc : (t.node j).elementCount ≤ t.maxElementsPerNode
    · exact if_pos hc
    · exact Eq.trans (if_neg hc) (if_pos (by rw [h]; decide))
  · intro h
    unfold SplitNode
    exact if_pos h
  · intro a
    rw [pickSplitAxis_eq]
    by_cases h0 : (fgt (vget (boxSizes (t.node j).box) 0) (some 0) &&
        !((t.node j).isAxisLocked 0)) = true
    · rw [if_pos h0]
      obtain ⟨hg0, hl0⟩ := condTrue h0
      by_cases h1 : (fgt (vget (boxSizes (t.node j).box) 1) (vget (boxSizes (t.node j).box) 0) &&
          !((t.node j).isAxisLocked 1)) = true
      · rw [if_pos h1]
        obtain ⟨hg1, hl1⟩ := condTrue h1
        intro ha
        obtain rfl : a = 1 := by simpa using ha.symm
        refine ⟨by decide, hl1, fgt_trans hg1 hg0, rfl, ?_⟩
        intro b hb hlb
        have hb2 : b = 0 ∨ b = 1 := by simpa [axes] using hb
        rcases hb2 with rfl | rfl
        · exact fgt_asymm hg1
        · exact fgt_irrefl _
      · rw [if_neg h1]
        intro ha
        obtain rfl : a = 0 := by simpa using ha.symm
        refine ⟨by decide, hl0, hg0, rfl, ?_⟩
        intro b hb hlb
        have hb2 : b = 0 ∨ b = 1 := by simpa [axes] using hb
        rcases hb2 with rfl | rfl
        · exact fgt_irrefl _
        · exact condFalse2 h1 hlb
    · rw [if_neg h0]
      by_cases h1b : (fgt (vget (boxSizes (t.node j).box) 1) (some 0) &&
          !((t.node j).isAxisLocked 1)) = true
      · rw [if_pos h1b]
        obtain ⟨hg1, hl1⟩ := condTrue h1b
        intro ha
        obtain rfl : a = 1 := by simpa using ha.symm
        refine ⟨by decide, hl1, hg1, rfl, ?_⟩
        intro b hb hlb
        have hb2 : b = 0 ∨ b = 1 := by simpa [axes] using hb
        rcases hb2 with rfl | rfl
        · by_cases hgs : fgt (vget (boxSizes (t.node j).box) 0)
              (vget (boxSizes (t.node j).box) 1) = true
          · exact absurd (fgt_trans hgs hg1) (by simp [condFalse2 h0 hlb])
          · simpa using hgs
        · exact fgt_irrefl _
      · rw [if_neg h1b]
        intro ha
        exact absurd ha.symm (by simp)
  · intro hval hcount hpick hadm
    have h0j : 0 ≤ j := hval.1
    have hjlen : j.toNat < t.nodes.length := by
      have := hval.2
      omega
    have hj1 : j.toNat < t.nodes.length + 1 := by omega
    have hj2 : j.toNat < t.nodes.length + 1 + 1 := by omega
    have hj3 : j.toNat < t.nodes.length + 1 + 1 + 1 := by omega
    simp only [SplitNode]
    rw [if_neg (not_le.mpr hcount), if_neg (by omega), if_neg hadm]
    simp only [splitEmit, TreeState.node]
    generalize splitParts M t j = PARTS
    generalize splitPositionOf M t j = SP
    generalize hpk : pickSplitAxis (boxSizes (iget t.nodes j).box) (iget t.nodes j) = PICK
    split_ifs <;>
      (simp only [node_upd_append_self, updNode_self, length_updNode, List.length_append,
        List.length_singleton, h0j, hjlen, hj1, hj2, hj3]
       trivial)

/-- C8 (witness): the split of the root of `exPre` (two boxes, capacity 1)
performs an admitted split and receives the chosen axis and the midpoint
position. -/
theorem C8_split_axis_and_position_witness :
    validIdx exPre 0 ∧
    exPre.maxElementsPerNode < (exPre.node 0).elementCount ∧
    0 ≤ (pickSplitAxis (boxSizes (exPre.node 0).box) (exPre.node 0)).1 ∧
    ¬(boxModel.keyIsBox = true ∧
      (splitParts boxModel exPre 0).2.1 + (splitParts boxModel exPre 0).2.2 <
        ((exPre.node 0).elementCount + 3) / 4) ∧
    (((SplitNode boxModel exPre 0).node 0).splitAxis =
      (pickSplitAxis (boxSizes (exPre.node 0).box) (exPre.node 0)).1 ∧
     ((SplitNode boxModel exPre 0).node 0).splitPosition = splitPositionOf boxModel exPre 0) :=
  ⟨by decide, by decide, by with_unfolding_all decide, by with_unfolding_all decide,
    (C8_split_axis_and_position boxModel exPre 0).2.2.2.2.2 (by decide) (by decide)
      (by with_unfolding_all decide) (by with_unfolding_all decide)⟩

/-! ### Permutation preservation (C4) -/

lemma ppLoop_perm (M : TreeModel) [Inhabited M.Elem] (axis : Nat) (split : F) :
    ∀ (fuel : Nat) (es : List M.Elem) (cl ch : Int),
      ((ppLoop M axis split fuel es cl ch).1).Perm es := by
  intro fuel
  induction fuel with
  | zero => intro es cl ch; exact List.Perm.refl _
  | succ f ih =>
    intro es cl ch
    simp only [ppLoop]
    split
    · exact (ih _ _ _).trans (listSwap_perm _ _ _)
    · exact List.Perm.refl _

lemma pbScanLow_perm (M : TreeModel) [Inhabited M.Elem] (axis : Nat) (split : F) :
    ∀ (fuel : Nat) (es : List M.Elem) (cl ch le : Int),
      ((pbScanLow M axis split fuel es cl ch le).1).Perm es := by
  intro fuel
  induction fuel with
  | zero => intro es cl ch le; exact List.Perm.refl _
  | succ f ih =>
    intro es cl ch le
    simp only [pbScanLow]
    split
    · split
      · exact List.Perm.refl _
      · refine (ih _ _ _ _).trans ?_
        split
        · split
          · exact listSwap_perm _ _ _
          · exact List.Perm.refl _
        · exact List.Perm.refl _
    · exact List.Perm.refl _

lemma pbScanHigh_perm (M : TreeModel) [Inhabited M.Elem] (axis : Nat) (split : F) :
    ∀ (fuel : Nat) (es : List M.Elem) (cl ch he : Int),
      ((pbScanHigh M axis split fuel es cl ch he).1).Perm es := by
  intro fuel
  induction fuel with
  | zero => intro es cl ch he; exact List.Perm.refl _
  | succ f ih =>
    intro es cl ch he
    simp only [pbScanHigh]
    split
    · split
      · exact List.Perm.refl _
      · refine (ih _ _ _ _).trans ?_
        split
        · split
          · exact listSwap_perm _ _ _
          · exact List.Perm.refl _
        · exact List.Perm.refl _
    · exact List.Perm.refl _

lemma pbLoop_perm (M : TreeModel) [Inhabited M.Elem] (axis : Nat) (split : F) :
    ∀ (fuel : Nat) (es : List M.Elem) (cl le ch he : Int),
      ((pbLoop M axis split fuel es cl le ch he).1).Perm es := by
  intro fuel
  induction fuel with
  | zero => intro es cl le ch he; exact List.Perm.refl _
  | succ f ih =>
    intro es cl le ch he
    simp only [pbLoop]
    have hs1 := pbScanLow_perm M axis split (f + 1) es cl ch le
    have hs2 := pbScanHigh_perm M axis split (f + 1)
      (pbScanLow M axis split (f + 1) es cl ch le).1
      (pbScanLow M axis split (f + 1) es cl ch le).2.1 ch he
    split
    · refine (ih _ _ _ _ _).trans ?_
      refine List.Perm.trans ?_ (hs2.trans hs1)
      split
      · split
        · exact (listSwap_perm _ _ _).trans (listSwap_perm _ _ _)
        · exact (listSwap_perm _ _ _).trans (listSwap_perm _ _ _)
      · split
        · exact (listSwap_perm _ _ _).trans (listSwap_perm _ _ _)
        · exact listSwap_perm _ _ _
    · split
      · split
        · exact (listSwap_perm _ _ _).trans (hs2.trans hs1)
        · exact hs2.trans hs1
      · exact hs2.trans hs1

lemma PartitionPoints_perm (M : TreeModel) [Inhabited M.Elem] (es : List M.Elem) (nd : Node)
    (axis : Nat) (split : F) : ((PartitionPoints M es nd axis split).1).Perm es := by
  unfold PartitionPoints
  exact ppLoop_perm M axis split _ es _ _

lemma PartitionBoxes_perm (M : TreeModel) [Inhabited M.Elem] (es : List M.Elem) (nd : Node)
    (axis : Nat) (split : F) : ((PartitionBoxes M es nd axis split).1).Perm es := by
  unfold PartitionBoxes
  exact pbLoop_perm M axis split _ es _ _ _ _

lemma splitParts_perm (M : TreeModel) [Inhabited M.Elem] (t : TreeState M) (j : Int) :
    ((splitParts M t j).1).Perm t.elements := by
  unfold splitParts
  split
  · exact PartitionBoxes_perm M t.elements _ _ _
  · exact PartitionPoints_perm M t.elements _ _ _

lemma SplitNode_elements_perm (M : TreeModel) [Inhabited M.Elem] (t : TreeState M) (j : Int) :
    ((SplitNode M t j).elements).Perm t.elements := by
  simp only [SplitNode]
  split
  · exact List.Perm.refl _
  · split
    · exact List.Perm.refl _
    · split
      · exact splitParts_perm M t j
      · exact splitParts_perm M t j

lemma BuildLoop_elements_perm (M : TreeModel) [Inhabited M.Elem] :
    ∀ (fuel : Nat) (t : TreeState M) (q : List Int),
      ((BuildLoop M fuel t q).elements).Perm t.elements := by
  intro fuel
  induction fuel with
  | zero => intro t q; exact List.Perm.refl _
  | succ f ih =>
    intro t q
    simp only [BuildLoop]
    split
    · exact List.Perm.refl _
    · exact (ih _ _).trans (SplitNode_elements_perm M t _)

/-- C4: `Create` permutes the element buffer in place — the multiset of
elements is preserved, for every model, capacity argument, and input. -/
theorem C4_create_permutes (M : TreeModel) [Inhabited M.Elem] (m : Int)
    (es : List M.Elem) : ((Create M (mkTree M m) es).elements).Perm es := by
  unfold Create
  split
  · exact List.Perm.refl _
  · exact BuildLoop_elements_perm M _ _ _

/-! ### Cursor bounds of the partition scans -/

lemma ppScanLow_bounds (M : TreeModel) [Inhabited M.Elem] (axis : Nat) (split : F) :
    ∀ (fuel : Nat) (es : List M.Elem) (cl ch : Int),
      cl ≤ ppScanLow M es axis split fuel cl ch ∧
      ppScanLow M es axis split fuel cl ch ≤ max cl (ch + 1) := by
  intro fuel
  induction fuel with
  | zero => intro es cl ch; simp only [ppScanLow]; omega
  | succ f ih =>
    intro es cl ch
    simp only [ppScanLow]
    split
    · split
      · omega
      · have h := ih es (cl + 1) ch
        rename_i hcl _
        omega
    · omega

lemma ppScanHigh_bounds (M : TreeModel) [Inhabited M.Elem] (axis : Nat) (split : F) :
    ∀ (fuel : Nat) (es : List M.Elem) (cl ch : Int),
      ppScanHigh M es axis split fuel cl ch ≤ ch ∧
      min (cl - 1) ch ≤ ppScanHigh M es axis split fuel cl ch := by
  intro fuel
  induction fuel with
  | zero => intro es cl ch; simp only [ppScanHigh]; omega
  | succ f ih =>
    intro es cl ch
    simp only [ppScanHigh]
    split
    · split
      · omega
      · have h := ih es cl (ch - 1)
        rename_i hcl _
        omega
    · omega

lemma ppLoop_cl_bounds (M : TreeModel) [Inhabited M.Elem] (axis : Nat) (split : F) :
    ∀ (fuel : Nat) (es : List M.Elem) (cl ch : Int),
      cl ≤ (ppLoop M axis split fuel es cl ch).2 ∧
      (ppLoop M axis split fuel es cl ch).2 ≤ max cl (ch + 1) := by
  intro fuel
  induction fuel with
  | zero => intro es cl ch; simp only [ppLoop]; omega
  | succ f ih =>
    intro es cl ch
    simp only [ppLoop]
    have hsl := ppScanLow_bounds M axis split (f + 1) es cl ch
    have hsh := ppScanHigh_bounds M axis split (f + 1) es
      (ppScanLow M es axis split (f + 1) cl ch) ch
    split
    · rename_i hcross
      have hr := ih (listSwap es (ppScanLow M es axis split (f + 1) cl ch)
          (ppScanHigh M es axis split (f + 1)
            (ppScanLow M es axis split (f + 1) cl ch) ch))
        (ppScanLow M es axis split (f + 1) cl ch + 1)
        (ppScanHigh M es axis split (f + 1)
          (ppScanLow M es axis split (f + 1) cl ch) ch - 1)
      omega
    · omega

lemma PartitionPoints_bounds (M : TreeModel) [Inhabited M.Elem] (es : List M.Elem)
    (nd : Node) (axis : Nat) (split : F) (h : nd.elementsBegin ≤ nd.elementsEnd) :
    0 ≤ (PartitionPoints M es nd axis split).2 ∧
    (PartitionPoints M es nd axis split).2 ≤ nd.elementsEnd - nd.elementsBegin := by
  unfold PartitionPoints
  have := ppLoop_cl_bounds M axis split ((nd.elementsEnd - nd.elementsBegin).toNat + 1) es
    nd.elementsBegin (nd.elementsEnd - 1)
  constructor
  · simp only []
    omega
  · simp only []
    omega

lemma pbScanLow_bounds (M : TreeModel) [Inhabited M.Elem] (axis : Nat) (split : F) :
    ∀ (fuel : Nat) (es : List M.Elem) (cl ch le : Int) (es1 : List M.Elem) (cl1 le1 : Int),
      pbScanLow M axis split fuel es cl ch le = (es1, cl1, le1) →
      le ≤ le1 ∧ cl ≤ cl1 ∧ cl1 ≤ max cl (ch + 1) ∧ (le ≤ cl → le1 ≤ cl1) := by
  intro fuel
  induction fuel with
  | zero =>
    intro es cl ch le es1 cl1 le1 heq
    simp only [pbScanLow, Prod.mk.injEq] at heq
    obtain ⟨-, rfl, rfl⟩ := heq
    omega
  | succ f ih =>
    intro es cl ch le es1 cl1 le1 heq
    simp only [pbScanLow] at heq
    split at heq
    · split at heq
      · simp only [Prod.mk.injEq] at heq
        obtain ⟨-, rfl, rfl⟩ := heq
        omega
      · rename_i hcl _
        split at heq
        · have hr := ih _ _ _ _ _ _ _ heq
          refine ⟨by omega, by omega, by omega, fun hp => ?_⟩
          have := hr.2.2.2 (by omega)
          omega
        · have hr := ih _ _ _ _ _ _ _ heq
          refine ⟨by omega, by omega, by omega, fun hp => ?_⟩
          have := hr.2.2.2 (by omega)
          omega
    · simp only [Prod.mk.injEq] at heq
      obtain ⟨-, rfl, rfl⟩ := heq
      omega

lemma pbScanHigh_bounds (M : TreeModel) [Inhabited M.Elem] (axis : Nat) (split : F) :
    ∀ (fuel : Nat) (es : List M.Elem) (cl ch he : Int) (es1 : List M.Elem) (ch1 he1 : Int),
      pbScanHigh M axis split fuel es cl ch he = (es1, ch1, he1) →
      he1 ≤ he ∧ ch1 ≤ ch ∧ min cl ch ≤ ch1 ∧ (ch ≤ he → ch1 ≤ he1) := by
  intro fuel
  induction fuel with
  | zero =>
    intro es cl ch he es1 ch1 he1 heq
    simp only [pbScanHigh, Prod.mk.injEq] at heq
    obtain ⟨-, rfl, rfl⟩ := heq
    omega
  | succ f ih =>
    intro es cl ch he es1 ch1 he1 heq
    simp only [pbScanHigh] at heq
    split at heq
    · split at heq
      · simp only [Prod.mk.injEq] at heq
        obtain ⟨-, rfl, rfl⟩ := heq
        omega
      · rename_i hcl _
        split at heq
        · have hr := ih _ _ _ _ _ _ _ heq
          refine ⟨by omega, by omega, by omega, fun hp => ?_⟩
          have := hr.2.2.2 (by omega)
          omega
        · have hr := ih _ _ _ _ _ _ _ heq
          refine ⟨by omega, by omega, by omega, fun hp => ?_⟩
          have := hr.2.2.2 (by omega)
          omega
    · simp only [Prod.mk.injEq] at heq
      obtain ⟨-, rfl, rfl⟩ := heq
      omega

lemma pbLoop_bounds (M : TreeModel) [Inhabited M.Elem] (axis : Nat) (split : F) :
    ∀ (fuel : Nat) (es : List M.Elem) (cl le ch he : Int) (es1 : List M.Elem) (le1 he1 : Int),
      pbLoop M axis split fuel es cl le ch he = (es1, le1, he1) →
      le ≤ le1 ∧ he1 ≤ he ∧
      (le ≤ cl → cl ≤ ch + 1 → ch ≤ he → le1 ≤ he1 + 1) := by
  intro fuel
  induction fuel with
  | zero =>
    intro es cl le ch he es1 le1 he1 heq
    simp only [pbLoop, Prod.mk.injEq] at heq
    obtain ⟨-, rfl, rfl⟩ := heq
    refine ⟨le_rfl, le_rfl, ?_⟩
    omega
  | succ f ih =>
    intro es cl le ch he es1 le1 he1 heq
    simp only [pbLoop] at heq
    have hsl := pbScanLow_bounds M axis split (f + 1) es cl ch le
      (pbScanLow M axis split (f + 1) es cl ch le).1
      (pbScanLow M axis split (f + 1) es cl ch le).2.1
      (pbScanLow M axis split (f + 1) es cl ch le).2.2 rfl
    have hsh := pbScanHigh_bounds M axis split (f + 1)
      (pbScanLow M axis split (f + 1) es cl ch le).1
      (pbScanLow M axis split (f + 1) es cl ch le).2.1 ch he
      (pbScanHigh M axis split (f + 1) (pbScanLow M axis split (f + 1) es cl ch le).1
        (pbScanLow M axis split (f + 1) es cl ch le).2.1 ch he).1
      (pbScanHigh M axis split (f + 1) (pbScanLow M axis split (f + 1) es cl ch le).1
        (pbScanLow M axis split (f + 1) es cl ch le).2.1 ch he).2.1
      (pbScanHigh M axis split (f + 1) (pbScanLow M axis split (f + 1) es cl ch le).1
        (pbScanLow M axis split (f + 1) es cl ch le).2.1 ch he).2.2 rfl
    split at heq
    · rename_i hcross
      have hr := ih _ _ _ _ _ _ _ _ heq
      refine ⟨by omega, by omega, fun hp1 hp2 hp3 => ?_⟩
      have h4 := hsh.2.2.2 (by omega)
      have h3 := hr.2.2 (by omega) (by omega) (by omega)
      omega
    · split at heq
      · rename_i heqc
        split at heq <;>
          (simp only [Prod.mk.injEq] at heq
           obtain ⟨-, rfl, rfl⟩ := heq
           refine ⟨by omega, by omega, fun hp1 hp2 hp3 => ?_⟩
           have h4 := hsh.2.2.2 (by omega)
           omega)
      · simp only [Prod.mk.injEq] at heq
        obtain ⟨-, rfl, rfl⟩ := heq
        refine ⟨by omega, by omega, fun hp1 hp2 hp3 => ?_⟩
        have h4 := hsh.2.2.2 (by omega)
        have h5 := hsl.2.2.2 hp1
        omega

lemma PartitionBoxes_bounds (M : TreeModel) [Inhabited M.Elem] (es : List M.Elem)
    (nd : Node) (axis : Nat) (split : F) (h : nd.elementsBegin ≤ nd.elementsEnd) :
    0 ≤ (PartitionBoxes M es nd axis split).2.1 ∧
    0 ≤ (PartitionBoxes M es nd axis split).2.2 ∧
    (PartitionBoxes M es nd axis split).2.1 + (PartitionBoxes M es nd axis split).2.2 ≤
      nd.elementsEnd - nd.elementsBegin := by
  unfold PartitionBoxes
  have := pbLoop_bounds M axis split ((nd.elementsEnd - nd.elementsBegin).toNat + 1) es
    nd.elementsBegin nd.elementsBegin (nd.elementsEnd - 1) (nd.elementsEnd - 1)
    (pbLoop M axis split ((nd.elementsEnd - nd.elementsBegin).toNat + 1) es
      nd.elementsBegin nd.elementsBegin (nd.elementsEnd - 1) (nd.elementsEnd - 1)).1
    (pbLoop M axis split ((nd.elementsEnd - nd.elementsBegin).toNat + 1) es
      nd.elementsBegin nd.elementsBegin (nd.elementsEnd - 1) (nd.elementsEnd - 1)).2.1
    (pbLoop M axis split ((nd.elementsEnd - nd.elementsBegin).toNat + 1) es
      nd.elementsBegin nd.elementsBegin (nd.elementsEnd - 1) (nd.elementsEnd - 1)).2.2 rfl
  have h3 := this.2.2 le_rfl (by omega) le_rfl
  refine ⟨by simp only []; omega, by simp only []; omega, by simp only []; omega⟩

lemma updNode_append (ns : List Node) (j : Int) (f : Node → Node) (rest : List Node)
    (h1 : j.toNat < ns.length) : updNode (ns ++ rest) j f = updNode ns j f ++ rest := by
  unfold updNode
  split
  · rw [iget_append_left _ _ _ h1, List.set_append_left _ _ h1]
  · rfl

lemma updNode_updNode (ns : List Node) (j : Int) (f g : Node → Node) (h0 : 0 ≤ j)
    (h1 : j.toNat < ns.length) :
    updNode (updNode ns j f) j g = updNode ns j (fun n => g (f n)) := by
  unfold updNode
  rw [if_pos h0, if_pos h0, if_pos h0]
  have hg : iget (ns.set j.toNat (f (iget ns j))) j = f (iget ns j) := by
    rw [iget_pos _ _ h0 (by simpa using h1)]
    simp only [List.get_eq_getElem]
    rw [List.getElem_set_self]
  rw [hg, List.set_set]

lemma iget_append_right {α : Type} [Inhabited α] (l rest : List α) (i : Int)
    (h : (l.length : Int) ≤ i) : iget (l ++ rest) i = iget rest (i - l.length) := by
  by_cases hk : i.toNat < l.length + rest.length
  · rw [iget_pos _ _ (by omega) (by simpa using hk), iget_pos _ _ (by omega) (by simp; omega)]
    simp only [List.get_eq_getElem]
    rw [List.getElem_append_right (by omega)]
    congr 1
    omega
  · rw [iget_out _ _ (by simp; omega), iget_out _ _ (by omega)]

lemma splitEmit_canon (M : TreeModel) [Inhabited M.Elem] (t : TreeState M) (j pa : Int)
    (sp : F) (es : List M.Elem) (lc hc : Int) (h0 : 0 ≤ j) (h1 : j.toNat < t.nodes.length) :
    splitEmit M t j pa sp es lc hc =
    { t with elements := es,
             nodes := updNode t.nodes j (fun nd0 => emitUpd M t j pa sp lc hc nd0) ++
               emitChildren M t j pa es lc hc } := by
  have h2 : j.toNat < t.nodes.length + 1 := by omega
  have h3 : j.toNat < t.nodes.length + 1 + 1 := by omega
  have hUU : ∀ (f g : Node → Node),
      updNode (updNode t.nodes j f) j g = updNode t.nodes j (fun n => g (f n)) :=
    fun f g => updNode_updNode _ _ f g h0 h1
  by_cases hB : M.keyIsBox = true <;>
    by_cases hL : lc > 0 <;>
    by_cases hH : hc > 0 <;>
    by_cases hMa : (t.node j).elementCount - lc - hc > 0 <;>
    by_cases hMb : (t.node j).elementCount - lc - hc ≤ t.maxElementsPerNode <;>
      simp only [splitEmit, emitUpd, emitChildren, hB, hL, hH, hMa, hMb,
        ite_true, ite_false, eq_self_iff_true, not_true, not_false_iff,
        Bool.false_eq_true, Bool.true_eq_false,
        and_self, and_true, true_and, if_true, if_false, updNode_append, hUU, length_updNode,
        List.length_append, List.length_singleton, List.append_assoc,
        List.nil_append, List.append_nil, h1, h2, h3,
        Nat.cast_add, Nat.cast_one, Nat.cast_ofNat, add_assoc, add_zero, zero_add]

/-- The bounds of the partition result used by the structural invariants. -/
lemma splitParts_bounds (M : TreeModel) [Inhabited M.Elem] (t : TreeState M) (j : Int)
    (h : (t.node j).elementsBegin ≤ (t.node j).elementsEnd) :
    0 ≤ (splitParts M t j).2.1 ∧ 0 ≤ (splitParts M t j).2.2 ∧
    (splitParts M t j).2.1 + (splitParts M t j).2.2 ≤
      (t.node j).elementsEnd - (t.node j).elementsBegin ∧
    ((splitParts M t j).1).length = t.elements.length := by
  unfold splitParts
  split
  · have := PartitionBoxes_bounds M t.elements (t.node j)
      (pickSplitAxis (boxSizes (t.node j).box) (t.node j)).1.toNat
      (splitPositionOf M t j) h
    exact ⟨this.1, this.2.1, this.2.2,
      (PartitionBoxes_perm M t.elements (t.node j) _ (splitPositionOf M t j)).length_eq⟩
  · have := PartitionPoints_bounds M t.elements (t.node j)
      (pickSplitAxis (boxSizes (t.node j).box) (t.node j)).1.toNat
      (splitPositionOf M t j) h
    refine ⟨this.1, ?_, ?_,
      (PartitionPoints_perm M t.elements (t.node j) _ (splitPositionOf M t j)).length_eq⟩
    · simp only [Node.elementCount]
      omega
    · simp only [Node.elementCount]
      omega


lemma iget_mem {α : Type} [Inhabited α] (l : List α) (i : Int) (h0 : 0 ≤ i)
    (h1 : i.toNat < l.length) : iget l i ∈ l := by
  rw [iget_pos _ _ h0 h1]
  exact List.get_mem l _ _

lemma emitUpd_eq (M : TreeModel) (t : TreeState M) (j pa : Int) (sp : F)
    (lc hc : Int) (nd0 : Node) :
    emitUpd M t j pa sp lc hc nd0 =
    { parent := nd0.parent,
      lowChild := if lc > 0 then (t.nodes.length : Int) else nd0.lowChild,
      highChild := if hc > 0 then (t.nodes.length : Int) + (if lc > 0 then 1 else 0)
        else nd0.highChild,
      elementsBegin := if M.keyIsBox = true ∧ (t.node j).elementCount - lc - hc > 0 ∧
          (t.node j).elementCount - lc - hc ≤ t.maxElementsPerNode
        then nd0.elementsBegin + lc else -1,
      elementsEnd := if M.keyIsBox = true ∧ (t.node j).elementCount - lc - hc > 0 ∧
          (t.node j).elementCount - lc - hc ≤ t.maxElementsPerNode
        then nd0.elementsEnd - hc else -1,
      box := nd0.box,
      splitPosition := sp,
      splitAxis := pa,
      middleChild := if M.keyIsBox = true ∧
          ¬((t.node j).elementCount - lc - hc > 0 ∧
            (t.node j).elementCount - lc - hc ≤ t.maxElementsPerNode) ∧
          (t.node j).elementCount - lc - hc > 0
        then (t.nodes.length : Int) + (if lc > 0 then 1 else 0) + (if hc > 0 then 1 else 0)
        else nd0.middleChild,
      lockedAxesMask := nd0.lockedAxesMask } := by
  simp only [emitUpd]
  split_ifs <;> first | rfl | tauto

lemma emitChildren_length (M : TreeModel) [Inhabited M.Elem] (t : TreeState M)
    (j pa : Int) (es : List M.Elem) (lc hc : Int) :
    (emitChildren M t j pa es lc hc).length =
    (if lc > 0 then 1 else 0) + (if hc > 0 then 1 else 0) +
    (if M.keyIsBox = true ∧
        ¬((t.node j).elementCount - lc - hc > 0 ∧
          (t.node j).elementCount - lc - hc ≤ t.maxElementsPerNode) ∧
        (t.node j).elementCount - lc - hc > 0 then 1 else 0) := by
  unfold emitChildren
  split_ifs <;> simp_all

lemma emitChildren_mem (M : TreeModel) [Inhabited M.Elem] (t : TreeState M)
    (j pa : Int) (es : List M.Elem) (lc hc : Int) :
    ∀ r ∈ emitChildren M t j pa es lc hc, r.parent = j ∧
      r.lowChild = -1 ∧ r.middleChild = -1 ∧ r.highChild = -1 ∧
      ((r.elementsBegin = (t.node j).elementsBegin ∧
        r.elementsEnd = (t.node j).elementsBegin + lc) ∨
       (r.elementsBegin = (t.node j).elementsEnd - hc ∧
        r.elementsEnd = (t.node j).elementsEnd) ∨
       (r.elementsBegin = (t.node j).elementsBegin + lc ∧
        r.elementsEnd = (t.node j).elementsEnd - hc)) := by
  intro r hr
  unfold emitChildren at hr
  simp only [List.mem_append] at hr
  rcases hr with (hr | hr) | hr <;>
    (split at hr <;> simp_all)


lemma arenaWF_splitEmit (M : TreeModel) [Inhabited M.Elem] (t : TreeState M) (j pa : Int)
    (sp : F) (es : List M.Elem) (lc hc : Int)
    (W : arenaWF t) (hj : validIdx t j) :
    arenaWF (splitEmit M t j pa sp es lc hc) := by
  obtain ⟨h0, hjlt⟩ := hj
  have h1 : j.toNat < t.nodes.length := by omega
  obtain ⟨Wne, Wpar, Wchild⟩ := W
  rw [splitEmit_canon M t j pa sp es lc hc h0 h1]
  set R := emitChildren M t j pa es lc hc with hRdef
  set NS := updNode t.nodes j (fun nd0 => emitUpd M t j pa sp lc hc nd0) ++ R with hNSdef
  have hNSlen : NS.length = t.nodes.length + R.length := by
    rw [hNSdef, List.length_append, length_updNode]
  have hNSlenI : (NS.length : Int) = (t.nodes.length : Int) + (R.length : Int) := by
    exact_mod_cast hNSlen
  have hRlen := emitChildren_length M t j pa es lc hc
  have hRlenI : (R.length : Int) = (if lc > 0 then (1 : Int) else 0) +
      (if hc > 0 then (1 : Int) else 0) +
      (if M.keyIsBox = true ∧
          ¬((t.node j).elementCount - lc - hc > 0 ∧
            (t.node j).elementCount - lc - hc ≤ t.maxElementsPerNode) ∧
          (t.node j).elementCount - lc - hc > 0 then (1 : Int) else 0) := by
    rw [hRdef, hRlen]
    split_ifs <;> simp
  have hselfj : iget NS j = emitUpd M t j pa sp lc hc (t.node j) :=
    node_upd_append_self _ _ _ _ h0 h1
  have hother : ∀ k : Int, k ≠ j → k.toNat < t.nodes.length →
      iget NS k = t.node k := fun k hk hklt =>
    node_upd_append_other _ _ _ _ k hk hklt
  have hhighk : ∀ k : Int, (t.nodes.length : Int) ≤ k →
      iget NS k = iget R (k - t.nodes.length) := by
    intro k hk
    rw [hNSdef, iget_append_right _ _ _ (by rw [length_updNode]; exact hk), length_updNode]
  have hmemR : ∀ x : Int, 0 ≤ x → x < (R.length : Int) → iget R x ∈ R := fun x hx0 hxlt =>
    iget_mem R x hx0 (by omega)
  have hparent_pres : ∀ k : Int, 0 ≤ k → k < (t.nodes.length : Int) →
      (iget NS k).parent = (t.node k).parent := by
    intro k hk0 hklt
    by_cases hkj : k = j
    · subst hkj
      rw [hselfj, emitUpd_eq]
    · rw [hother k hkj (by omega)]
  have hslotsj : slotsOf (iget NS j) = [
      (if lc > 0 then (t.nodes.length : Int) else (t.node j).lowChild),
      (if M.keyIsBox = true ∧
          ¬((t.node j).elementCount - lc - hc > 0 ∧
            (t.node j).elementCount - lc - hc ≤ t.maxElementsPerNode) ∧
          (t.node j).elementCount - lc - hc > 0
        then (t.nodes.length : Int) + (if lc > 0 then 1 else 0) + (if hc > 0 then 1 else 0)
        else (t.node j).middleChild),
      (if hc > 0 then (t.nodes.length : Int) + (if lc > 0 then 1 else 0)
        else (t.node j).highChild)] := by
    rw [hselfj, emitUpd_eq]
    simp only [slotsOf]
  refine ⟨?_, ?_, ?_⟩
  · -- non-empty
    intro h
    have h2 : NS = ([] : List Node) := h
    have h3 : t.nodes.length ≠ 0 := fun hz => Wne (List.length_eq_zero.mp hz)
    rw [h2] at hNSlen
    simp at hNSlen
    omega
  · -- parents
    intro k hk hk0
    have hkv : 0 ≤ k ∧ k < (NS.length : Int) := hk
    show 0 ≤ (iget NS k).parent ∧ (iget NS k).parent < k
    by_cases hklt : k < (t.nodes.length : Int)
    · rw [hparent_pres k hkv.1 hklt]
      exact Wpar k ⟨hkv.1, hklt⟩ hk0
    · push_neg at hklt
      rw [hhighk k hklt]
      have hf := emitChildren_mem M t j pa es lc hc _
        (hmemR (k - t.nodes.length) (by omega) (by omega))
      rw [hf.1]
      exact ⟨h0, by omega⟩
  · -- children
    intro k hk c hcs hcne
    simp only [TreeState.node] at hcs
    have hkv : 0 ≤ k ∧ k < (NS.length : Int) := hk
    show k < c ∧ c < (NS.length : Int)
    by_cases hklt : k < (t.nodes.length : Int)
    · by_cases hkj : k = j
      · subst hkj
        rw [hslotsj] at hcs
        simp only [List.mem_cons, List.not_mem_nil, or_false] at hcs
        have holdl : (t.node k).lowChild ≠ -1 →
            k < (t.node k).lowChild ∧ (t.node k).lowChild < (t.nodes.length : Int) :=
          fun hne => Wchild k ⟨hkv.1, hklt⟩ _ (by simp [slotsOf]) hne
        have holdm : (t.node k).middleChild ≠ -1 →
            k < (t.node k).middleChild ∧ (t.node k).middleChild < (t.nodes.length : Int) :=
          fun hne => Wchild k ⟨hkv.1, hklt⟩ _ (by simp [slotsOf]) hne
        have holdh : (t.node k).highChild ≠ -1 →
            k < (t.node k).highChild ∧ (t.node k).highChild < (t.nodes.length : Int) :=
          fun hne => Wchild k ⟨hkv.1, hklt⟩ _ (by simp [slotsOf]) hne
        rcases hcs with hce | hce | hce <;> subst hce <;>
          split_ifs at hcne hRlenI ⊢ <;> first
            | (exact ⟨by omega, by omega⟩)
            | (exact ⟨(holdl hcne).1, by have := (holdl hcne).2; omega⟩)
            | (exact ⟨(holdm hcne).1, by have := (holdm hcne).2; omega⟩)
            | (exact ⟨(holdh hcne).1, by have := (holdh hcne).2; omega⟩)
      · have hcs2 : c ∈ slotsOf (t.node k) := by
          rwa [show slotsOf (iget NS k) = slotsOf (t.node k) from by
            rw [hother k hkj (by omega)]] at hcs
        have hcv := Wchild k ⟨hkv.1, hklt⟩ c hcs2 hcne
        exact ⟨hcv.1, by omega⟩
    · exfalso
      push_neg at hklt
      rw [hhighk k hklt] at hcs
      have hf := emitChildren_mem M t j pa es lc hc _
        (hmemR (k - t.nodes.length) (by omega) (by omega))
      rw [show slotsOf (iget R (k - t.nodes.length)) = [-1, -1, -1] from by
        simp only [slotsOf, hf.2.1, hf.2.2.1, hf.2.2.2.1]] at hcs
      simp only [List.mem_cons, List.not_mem_nil, or_false] at hcs
      rcases hcs with h | h | h <;> exact hcne h


lemma iget_singleton {α : Type} [Inhabited α] (a : α) : iget [a] 0 = a := by
  rw [iget_pos _ _ le_rfl (by simp)]
  rfl

lemma arenaWF_SplitNode (M : TreeModel) [Inhabited M.Elem] (t : TreeState M) (j : Int)
    (W : arenaWF t) (hj : validIdx t j) : arenaWF (SplitNode M t j) := by
  simp only [SplitNode]
  split
  · exact W
  · split
    · exact W
    · split
      · exact W
      · exact arenaWF_splitEmit M t j _ _ _ _ _ W hj

lemma SplitNode_nodes_len_mono (M : TreeModel) [Inhabited M.Elem] (t : TreeState M)
    (j : Int) (hj : validIdx t j) :
    t.nodes.length ≤ (SplitNode M t j).nodes.length := by
  obtain ⟨h0, hjlt⟩ := hj
  have h1 : j.toNat < t.nodes.length := by omega
  simp only [SplitNode]
  split
  · exact le_rfl
  · split
    · exact le_rfl
    · split
      · exact le_rfl
      · rw [splitEmit_canon M t j _ _ _ _ _ h0 h1]
        simp only [List.length_append, length_updNode]
        omega

lemma arenaWF_BuildLoop (M : TreeModel) [Inhabited M.Elem] :
    ∀ (fuel : Nat) (t : TreeState M) (q : List Int),
      arenaWF t → (∀ x ∈ q, validIdx t x) → arenaWF (BuildLoop M fuel t q) := by
  intro fuel
  induction fuel with
  | zero => intro t q W _; exact W
  | succ f ih =>
    intro t q W hq
    simp only [BuildLoop]
    split
    · exact W
    · rename_i j hql
      have hjv : validIdx t j := hq j (List.mem_of_mem_getLast? hql)
      have W1 := arenaWF_SplitNode M t j W hjv
      have hlen := SplitNode_nodes_len_mono M t j hjv
      have hlenI : (t.nodes.length : Int) ≤ ((SplitNode M t j).nodes.length : Int) := by
        exact_mod_cast hlen
      have hjv1 : validIdx (SplitNode M t j) j := ⟨hjv.1, by have := hjv.2; omega⟩
      apply ih
      · exact W1
      · intro x hx
        simp only [List.mem_append] at hx
        rcases hx with hx | hx
        · have hv := hq x (List.dropLast_subset q hx)
          exact ⟨hv.1, by have := hv.2; omega⟩
        · have hchild : x ∈ slotsOf ((SplitNode M t j).node j) ∧ 0 ≤ x := by
            rcases hx with (hx | hx) | hx
            · split at hx
              · rename_i hcond
                simp only [List.mem_singleton] at hx
                subst hx
                exact ⟨by simp [slotsOf], hcond⟩
              · simp at hx
            · split at hx
              · rename_i hcond
                simp only [List.mem_singleton] at hx
                subst hx
                simp only [Bool.and_eq_true, decide_eq_true_eq] at hcond
                exact ⟨by simp [slotsOf], hcond.2⟩
              · simp at hx
            · split at hx
              · rename_i hcond
                simp only [List.mem_singleton] at hx
                subst hx
                exact ⟨by simp [slotsOf], hcond⟩
              · simp at hx
          have hb := W1.2.2 j hjv1 x hchild.1 (by omega)
          exact ⟨hchild.2, hb.2⟩

lemma arenaWF_Create (M : TreeModel) [Inhabited M.Elem] (t : TreeState M)
    (es : List M.Elem) : arenaWF (Create M t es) := by
  have hinit : arenaWF
      ({ t with elements := es,
                nodes := [{ parent := -1, lowChild := -1, highChild := -1,
                            elementsBegin := 0, elementsEnd := (es.length : Int),
                            box := BoundKeys M es }] } : TreeState M) := by
    refine ⟨by simp, ?_, ?_⟩
    · intro j hj hj0
      exfalso
      have hv : 0 ≤ j ∧ j < ((1 : Nat) : Int) := hj
      have : j = 0 := by omega
      exact hj0 this
    · intro j hj c hcs hcne
      exfalso
      have hv : 0 ≤ j ∧ j < ((1 : Nat) : Int) := hj
      have hj0 : j = 0 := by omega
      subst hj0
      simp only [TreeState.node] at hcs
      rw [iget_singleton] at hcs
      simp only [slotsOf, List.mem_cons, List.not_mem_nil, or_false] at hcs
      rcases hcs with h | h | h <;> exact hcne h
  unfold Create
  split
  · exact hinit
  · apply arenaWF_BuildLoop M _ _ _ hinit
    intro x hx
    simp only [List.mem_singleton] at hx
    subst hx
    exact ⟨le_rfl, by simp⟩


/-- C5 (amended): after `Create(elements)` the arena always holds at least
one node (the root is appended unconditionally, so this holds even for an
empty input, where the element count is 0); every non-root node's `parent`
field is a valid strictly earlier index; and every child slot (`lowChild`,
`middleChild`, `highChild`) is either `-1` or a valid strictly later
index. -/
theorem C5_arena_wellformed (M : TreeModel) [Inhabited M.Elem] (m : Int)
    (es : List M.Elem) :
    1 ≤ (Create M (mkTree M m) es).nodes.length ∧
    (∀ j : Int, validIdx (Create M (mkTree M m) es) j → j ≠ 0 →
      0 ≤ ((Create M (mkTree M m) es).node j).parent ∧
      ((Create M (mkTree M m) es).node j).parent < j) ∧
    (∀ j : Int, validIdx (Create M (mkTree M m) es) j →
      ∀ c ∈ slotsOf ((Create M (mkTree M m) es).node j), c = -1 ∨
        (j < c ∧ c < ((Create M (mkTree M m) es).nodes.length : Int))) := by
  obtain ⟨Wne, Wpar, Wchild⟩ := arenaWF_Create M (mkTree M m) es
  refine ⟨?_, Wpar, ?_⟩
  · have := List.length_pos.mpr Wne
    omega
  · intro j hj c hcs
    by_cases hne : c = -1
    · exact Or.inl hne
    · exact Or.inr (Wchild j hj c hcs hne)

/-- C5 (witness): the two-box tree built with capacity 1 has at least one
node, and its node 1 has a valid strictly earlier parent. -/
theorem C5_arena_wellformed_witness :
    1 ≤ (Create boxModel (mkTree boxModel 1) [exB0, exB1]).nodes.length ∧
    (0 ≤ ((Create boxModel (mkTree boxModel 1) [exB0, exB1]).node 1).parent ∧
      ((Create boxModel (mkTree boxModel 1) [exB0, exB1]).node 1).parent < 1) :=
  ⟨(C5_arena_wellformed boxModel 1 [exB0, exB1]).1,
   (C5_arena_wellformed boxModel 1 [exB0, exB1]).2.1 1
     (by with_unfolding_all decide) (by decide)⟩

end GeoToolbox
